import Mathlib

/-! Simple Tab Deduplicate: grouping, keeper selection and URL normalisation.

A shallow embedding of `src/scripts/tabTools.js` and of the two settings handlers of
`src/popup.js`.

Conventions of the embedding:

* JavaScript numbers that hold tab ids, window ids and timestamps are integers (`Int`);
  a property that may be absent (`undefined`) is an `Option`.
* The browser built-ins the source calls are not part of the repository.  The WHATWG
  `URL` constructor and `String.prototype.localeCompare` are fields of `Runtime`;
  `chrome.tabs.query` and `chrome.tabs.remove` are fields of `Host`, and every call that
  reaches the host is recorded, in order, in a log.  How the promises awaited by the popup
  handlers settle is an argument of each handler.
* A rejected promise / thrown exception is `Except.error`.
-/

namespace TabDedup

set_option maxRecDepth 100000

/-! ## Data model -/

/-- A tab record as delivered by `chrome.tabs.query`, and also the snapshot produced by
`minifyTab` (same ten properties).  `url = ""` stands for a falsy `tab.url`
(absent or empty); `lastAccessed = none` for an absent `lastAccessed`. -/
structure Tab where
  id : Int
  title : String
  url : String
  windowId : Int
  index : Int
  active : Bool
  pinned : Bool
  discarded : Bool
  audible : Bool
  lastAccessed : Option Int
deriving DecidableEq, Repr

/-- The properties of a `URL` object that the source reads. -/
structure ParsedUrl where
  protocol : String
  host : String
  hostname : String
  pathname : String
  search : String
deriving DecidableEq, Repr

/-- Browser built-ins used by the pure part of the source.  `parseUrl raw = none` means
that `new URL(raw)` throws. -/
structure Runtime where
  parseUrl : String → Option ParsedUrl
  localeCompare : String → String → Int

/-- The options object (`DEFAULT_SETTINGS` shape).  `strategy = ""` stands for a falsy
`options.strategy`. -/
structure Settings where
  scope : String
  strategy : String
  includePinned : Bool
  ignoreQuery : Bool
deriving DecidableEq, Repr

/-- One entry of `tokenToGroup`, later one element of `duplicateSets`. -/
structure Group where
  token : String
  normalizedUrl : String
  hostname : String
  tabs : List Tab
deriving DecidableEq, Repr

/-- The object returned by `groupTabsByDuplicate`. -/
structure Summary where
  totalTabs : Nat
  eligibleTabs : Nat
  duplicateSets : List Group
  possibleClosures : Int
deriving DecidableEq, Repr

def DEFAULT_SETTINGS : Settings :=
  { scope := "all-windows", strategy := "keep-oldest", includePinned := false, ignoreQuery := false }

def SPECIAL_PROTOCOLS : List String :=
  ["chrome:", "chrome-extension:", "edge:", "devtools:", "about:"]

/-! ## URL normalisation -/

/-- The effect of `s.replace(/\/+$/, "")` on the characters of `s`: the regular expression
is tried at each position from the left; it matches at a position exactly when the rest of
the string is a non-empty run of `/` reaching the end, and the match is then deleted. -/
def replaceTrailingSlashes : List Char → List Char
  | [] => []
  | c :: cs => if (c :: cs).all (fun d => d == '/') then [] else c :: replaceTrailingSlashes cs

/-- The function `trimTrailingSlash(pathname)`. -/
def trimTrailingSlash (pathname : String) : String :=
  if pathname = "" ∨ pathname = "/" then "/"
  else
    let replaced := String.mk (replaceTrailingSlashes pathname.data)
    if replaced = "" then "/" else replaced

/-- The function `buildComparisonToken(rawUrl, ignoreQuery)`. -/
def buildComparisonToken (rt : Runtime) (rawUrl : String) (ignoreQuery : Bool) : String :=
  if rawUrl = "" then ""
  else
    match rt.parseUrl rawUrl with
    | some parsed =>
      let pathname := trimTrailingSlash parsed.pathname
      let search := if ignoreQuery then "" else parsed.search
      parsed.protocol ++ "//" ++ parsed.host ++ pathname ++ search
    | none => rawUrl

/-- The function `normalizeUrl(rawUrl, ignoreQuery)`. -/
def normalizeUrl (rt : Runtime) (rawUrl : String) (ignoreQuery : Bool) : String :=
  buildComparisonToken rt rawUrl ignoreQuery

/-- The effect of `s.replace(/^www\./, "")`. -/
def stripLeadingWww (hostname : String) : String :=
  if "www.".data.isPrefixOf hostname.data then String.mk (hostname.data.drop 4) else hostname

/-- The function `hostnameFromUrl(rawUrl)`. -/
def hostnameFromUrl (rt : Runtime) (rawUrl : String) : String :=
  match rt.parseUrl rawUrl with
  | some parsed => stripLeadingWww parsed.hostname
  | none => rawUrl

/-- The function `shouldSkipUrl(url)`. -/
def shouldSkipUrl (rt : Runtime) (url : String) : Bool :=
  match rt.parseUrl url with
  | some parsed => SPECIAL_PROTOCOLS.contains parsed.protocol
  | none => true

/-- The function `minifyTab(tab)`: `lastAccessed: tab.lastAccessed || 0`. -/
def minifyTab (tab : Tab) : Tab :=
  { id := tab.id, title := tab.title, url := tab.url, windowId := tab.windowId,
    index := tab.index, active := tab.active, pinned := tab.pinned,
    discarded := tab.discarded, audible := tab.audible,
    lastAccessed := some (tab.lastAccessed.getD 0) }

/-! ## Sorting -/

/-- The built-in `Array.prototype.sort(compare)`.  The ECMAScript sort is stable and places `a` before
`b` when `compare(a, b) <= 0`; for a consistent comparator every such sort returns the same
array, which is the one computed here by stable insertion. -/
def jsSort {α : Type} (compare : α → α → Int) (xs : List α) : List α :=
  xs.insertionSort (fun a b => compare a b ≤ 0)

/-- The comparator `(a, b) => a.lastAccessed - b.lastAccessed`.  With an absent operand the
difference is `NaN`, which the sort reads as `+0`. -/
def compareLastAccessed (a b : Tab) : Int :=
  match a.lastAccessed, b.lastAccessed with
  | some x, some y => x - y
  | _, _ => 0

/-- The comparator
`(a, b) => b.tabs.length - a.tabs.length || a.hostname.localeCompare(b.hostname)`. -/
def compareGroups (rt : Runtime) (a b : Group) : Int :=
  let byCount : Int := (b.tabs.length : Int) - (a.tabs.length : Int)
  if byCount ≠ 0 then byCount else rt.localeCompare a.hostname b.hostname

/-! ## Grouping -/

/-- The predicate of `tabs.filter(...)` at the head of `groupTabsByDuplicate`. -/
def isEligible (rt : Runtime) (includePinned : Bool) (tab : Tab) : Bool :=
  if tab.url = "" then false
  else if !includePinned && tab.pinned then false
  else if shouldSkipUrl rt tab.url then false
  else true

/-- One iteration of `for (const tab of eligibleTabs)`.  `tokenToGroup` is the list of its
values in insertion order; `Map.get` finds the entry with the key `token`, `Map.set` on a
new key appends, and `group.tabs.push` extends the entry found. -/
def addToGroups (rt : Runtime) (ignoreQuery : Bool) (tokenToGroup : List Group) (tab : Tab) :
    List Group :=
  let token := buildComparisonToken rt tab.url ignoreQuery
  let normalized := normalizeUrl rt tab.url ignoreQuery
  match tokenToGroup.find? (fun g => g.token = token) with
  | none =>
    tokenToGroup ++
      [{ token := token, normalizedUrl := normalized, hostname := hostnameFromUrl rt tab.url,
         tabs := [minifyTab tab] }]
  | some _ =>
    tokenToGroup.map (fun g =>
      if g.token = token then { g with tabs := g.tabs ++ [minifyTab tab] } else g)

/-- The whole `for` loop, started from the empty map. -/
def buildGroups (rt : Runtime) (ignoreQuery : Bool) (eligibleTabs : List Tab) : List Group :=
  eligibleTabs.foldl (addToGroups rt ignoreQuery) []

/-- The function `groupTabsByDuplicate(tabs, options)`. -/
def groupTabsByDuplicate (rt : Runtime) (tabs : List Tab) (options : Settings) : Summary :=
  let includePinned := options.includePinned
  let ignoreQuery := options.ignoreQuery
  let eligibleTabs := tabs.filter (isEligible rt includePinned)
  let tokenToGroup := buildGroups rt ignoreQuery eligibleTabs
  let duplicateSets :=
    jsSort (compareGroups rt)
      ((tokenToGroup.filter (fun group => decide (group.tabs.length > 1))).map
        (fun group => { group with tabs := jsSort compareLastAccessed group.tabs }))
  let possibleClosures : Int :=
    duplicateSets.foldl (fun total group => total + ((group.tabs.length : Int) - 1)) 0
  { totalTabs := tabs.length, eligibleTabs := eligibleTabs.length,
    duplicateSets := duplicateSets, possibleClosures := possibleClosures }

/-! ## Keeper selection -/

/-- The expression `tab.lastAccessed || 0`. -/
def lastAccessedOr0 (tab : Tab) : Int := tab.lastAccessed.getD 0

/-- The reducer of the `keep-newest` branch of `pickKeeper`; `none` is `undefined`. -/
def newestStep (latest : Option Tab) (tab : Tab) : Option Tab :=
  match latest with
  | none => some tab
  | some latest =>
    if lastAccessedOr0 tab = lastAccessedOr0 latest then
      (if tab.id > latest.id then some tab else some latest)
    else if lastAccessedOr0 tab > lastAccessedOr0 latest then some tab else some latest

/-- The reducer of the default (`keep-oldest`) branch of `pickKeeper`. -/
def oldestStep (oldest : Option Tab) (tab : Tab) : Option Tab :=
  match oldest with
  | none => some tab
  | some oldest =>
    if lastAccessedOr0 tab = lastAccessedOr0 oldest then
      (if tab.id < oldest.id then some tab else some oldest)
    else if lastAccessedOr0 tab < lastAccessedOr0 oldest then some tab else some oldest

/-- The function `pickKeeper(tabs, strategy)`: `tabs.reduce(step, tabs[0])`; the result is `undefined`
(`none`) for an empty array. -/
def pickKeeper (tabs : List Tab) (strategy : String) : Option Tab :=
  if strategy = "keep-newest" then tabs.foldl newestStep tabs.head?
  else tabs.foldl oldestStep tabs.head?

/-- The function `determineKeeper(tabs, strategy)`.  An omitted `strategy` is the default
`DEFAULT_SETTINGS.strategy`, which is passed explicitly here. -/
def determineKeeper (tabs : List Tab) (strategy : String) : Option Tab :=
  pickKeeper tabs strategy

/-- The body of `duplicateSets.forEach` in `selectTabsToClose`, as a step on the array
`ids`.  Reading `keeper.id` of an `undefined` keeper would throw a `TypeError`. -/
def selectStep (strategy : String) (ids : List Int) (group : Group) : Except String (List Int) :=
  if group.tabs.length < 2 then pure ids
  else
    match pickKeeper group.tabs strategy with
    | none => throw "TypeError: cannot read properties of undefined (reading id)"
    | some keeper =>
      pure (group.tabs.foldl (fun acc tab => if tab.id ≠ keeper.id then acc ++ [tab.id] else acc) ids)

/-- The function `selectTabsToClose(duplicateSets, strategy)`; an omitted `strategy` is
`DEFAULT_SETTINGS.strategy`, passed explicitly here. -/
def selectTabsToClose (duplicateSets : List Group) (strategy : String) :
    Except String (List Int) :=
  duplicateSets.foldlM (selectStep strategy) []

/-! ## Host boundary -/

/-- The browser side of the asynchronous calls.  `tabsQuery currentWindow` is the outcome of
`chrome.tabs.query` (an error is `chrome.runtime.lastError.message`), `tabsRemove ids` the
outcome of `chrome.tabs.remove(ids)`. -/
structure Host where
  tabsQuery : Bool → Except String (List Tab)
  tabsRemove : List Int → Except String Unit

/-- A request that reached the host. -/
inductive HostCall where
  | query (currentWindow : Bool)
  | remove (tabIds : List Int)
deriving DecidableEq, Repr

/-- The object resolved by `deduplicateTabs`. -/
structure DedupResult where
  removed : Nat
  summary : Summary
deriving DecidableEq, Repr

/-- The function `buildScopeQuery(scope)`: `true` for a query with `currentWindow: true`,
`false` for the empty query. -/
def buildScopeQuery (scope : String) : Bool :=
  if scope = "current-window" then true else false

/-- The function `queryTabs(queryInfo)`: the outcome together with the requests issued. -/
def queryTabs (host : Host) (queryInfo : Bool) : Except String (List Tab) × List HostCall :=
  (host.tabsQuery queryInfo, [HostCall.query queryInfo])

/-- The function `removeTabs(tabIds)`: the outcome together with the requests issued. -/
def removeTabs (host : Host) (tabIds : List Int) : Except String Unit × List HostCall :=
  (host.tabsRemove tabIds, [HostCall.remove tabIds])

/-- The function `computeDuplicateSummary(options)`. -/
def computeDuplicateSummary (rt : Runtime) (host : Host) (options : Settings) :
    Except String (List Tab × Summary) × List HostCall :=
  match queryTabs host (buildScopeQuery options.scope) with
  | (Except.error e, log) => (Except.error e, log)
  | (Except.ok tabs, log) => (Except.ok (tabs, groupTabsByDuplicate rt tabs options), log)

/-- The function `deduplicateTabs(options)`: the outcome together with the requests issued, in order. -/
def deduplicateTabs (rt : Runtime) (host : Host) (options : Settings) :
    Except String DedupResult × List HostCall :=
  match computeDuplicateSummary rt host options with
  | (Except.error e, log) => (Except.error e, log)
  | (Except.ok (_, summary), log) =>
    match selectTabsToClose summary.duplicateSets
        (if options.strategy = "" then DEFAULT_SETTINGS.strategy else options.strategy) with
    | Except.error e => (Except.error e, log)
    | Except.ok tabIds =>
      if tabIds.length = 0 then (Except.ok { removed := 0, summary := summary }, log)
      else
        match removeTabs host tabIds with
        | (Except.error e, log2) => (Except.error e, log ++ log2)
        | (Except.ok _, log2) =>
          (Except.ok { removed := tabIds.length, summary := summary }, log ++ log2)

/-- The function `closeSpecificTabs(tabIds)`; `none` is a falsy `tabIds`. -/
def closeSpecificTabs (host : Host) (tabIds : Option (List Int)) :
    Except String Unit × List HostCall :=
  match tabIds with
  | none => (Except.ok (), [])
  | some ids => if ids.length = 0 then (Except.ok (), []) else removeTabs host ids

/-! ## Popup handlers -/

/-- The value read from a form control: `checked` of a checkbox, `value` otherwise. -/
inductive FormValue where
  | flag (checked : Bool)
  | text (value : String)
deriving DecidableEq, Repr

/-- The object `state.settings`, by its own properties. -/
abbrev SettingsObject := List (String × FormValue)

/-- The object spread `...settings, [name]: nextValue`: an own property keeps its place and
takes the new value, a new property is added last. -/
def setProperty (settings : SettingsObject) (name : String) (nextValue : FormValue) :
    SettingsObject :=
  if settings.any (fun kv => kv.1 = name) then
    settings.map (fun kv => if kv.1 = name then (name, nextValue) else kv)
  else settings ++ [(name, nextValue)]

/-- The part of `event.target` that `handleSettingChange` reads. -/
structure ChangeEvent where
  name : String
  type : String
  value : String
  checked : Bool
deriving DecidableEq, Repr

/-- What a popup handler does that is visible outside of it, in order. -/
inductive PopupEffect where
  | preventDefault
  | setProcessing (isProcessing : Bool)
  | saveSettings (settings : SettingsObject)
  | refreshSummary (settings : SettingsObject)
  | deduplicateTabs (settings : SettingsObject)
  | consoleWarn (message : String)
  | consoleError (message : String)
  | showStatus (message : String) (variant : String)
deriving DecidableEq, Repr

/-- The function `handleSettingChange(event)` on `state.settings`; `saveOutcome` is how the promise of
`saveSettings` settles.  Returns the new `state.settings` and the effects. -/
def handleSettingChange (settings : SettingsObject) (event : ChangeEvent)
    (saveOutcome : Except String Unit) : SettingsObject × List PopupEffect :=
  if event.name = "" then (settings, [])
  else
    let nextValue :=
      if event.type = "checkbox" then FormValue.flag event.checked else FormValue.text event.value
    let next := setProperty settings event.name nextValue
    (next,
      [PopupEffect.saveSettings next, PopupEffect.refreshSummary next] ++
        (match saveOutcome with
         | Except.error _ => [PopupEffect.consoleWarn "Failed to save settings"]
         | Except.ok _ => []))

/-- The status line after a successful `deduplicateTabs`. -/
def closedMessage (removed : Nat) : String :=
  "Closed " ++ toString removed ++ " duplicate " ++ (if removed = 1 then "tab" else "tabs") ++ "."

/-- The function `handleSubmit(event)` on `state.settings`; `saveOutcome` and `dedupOutcome` are how the
promises of `saveSettings` and `deduplicateTabs` settle (`removed` for the latter). -/
def handleSubmit (settings : SettingsObject) (saveOutcome : Except String Unit)
    (dedupOutcome : Except String Nat) : SettingsObject × List PopupEffect :=
  let failed := [PopupEffect.consoleError "Deduplication failed",
    PopupEffect.showStatus "Deduplication failed." "error", PopupEffect.setProcessing false]
  (settings,
    [PopupEffect.preventDefault, PopupEffect.setProcessing true,
      PopupEffect.saveSettings settings] ++
    (match saveOutcome with
     | Except.error _ => failed
     | Except.ok _ =>
       [PopupEffect.deduplicateTabs settings] ++
       (match dedupOutcome with
        | Except.error _ => failed
        | Except.ok removed =>
          [if removed ≠ 0 then PopupEffect.showStatus (closedMessage removed) "success"
           else PopupEffect.showStatus "No duplicates to close." "info",
           PopupEffect.refreshSummary settings, PopupEffect.setProcessing false])))

/-! ## Specification-side definitions and sample data -/

/-- A small table standing in for the `URL` constructor on the addresses used in the
worked examples; every other string is rejected. -/
def sampleParseUrl (raw : String) : Option ParsedUrl :=
  if raw = "https://a.com/" then some ⟨"https:", "a.com", "a.com", "/", ""⟩
  else if raw = "https://a.com" then some ⟨"https:", "a.com", "a.com", "/", ""⟩
  else if raw = "https://b.com/" then some ⟨"https:", "b.com", "b.com", "/", ""⟩
  else if raw = "https://x.com/a/" then some ⟨"https:", "x.com", "x.com", "/a/", ""⟩
  else if raw = "https://x.com/a" then some ⟨"https:", "x.com", "x.com", "/a", ""⟩
  else if raw = "https://www.c.org/p?x=1" then some ⟨"https:", "www.c.org", "www.c.org", "/p", "?x=1"⟩
  else if raw = "chrome://settings" then some ⟨"chrome:", "settings", "settings", "/", ""⟩
  else none

/-- Ordinal comparison of two character sequences, as a `localeCompare` result. -/
def compareChars : List Char → List Char → Int
  | [], [] => 0
  | [], _ :: _ => -1
  | _ :: _, [] => 1
  | a :: as, b :: bs =>
    if a.toNat < b.toNat then -1
    else if b.toNat < a.toNat then 1
    else compareChars as bs

/-- A `localeCompare` that orders strings by their characters. -/
def sampleLocaleCompare (a b : String) : Int := compareChars a.data b.data

def sampleRuntime : Runtime :=
  { parseUrl := sampleParseUrl, localeCompare := sampleLocaleCompare }

/-- The ids, in member order, of the members of `group` whose id is not the keeper's. -/
def idsOtherThanKeeper (strategy : String) (group : Group) : List Int :=
  match pickKeeper group.tabs strategy with
  | none => []
  | some keeper => (group.tabs.filter (fun tab => decide (tab.id ≠ keeper.id))).map (fun tab => tab.id)

/-- What the map `tokenToGroup` holds after the loop has consumed the tabs `seen`. -/
structure GroupsInv (rt : Runtime) (ignoreQuery : Bool) (seen : List Tab) (groups : List Group) :
    Prop where
  nodup : (groups.map (fun g => g.token)).Nodup
  tabs_eq : ∀ g ∈ groups,
    g.tabs = (seen.filter (fun t => decide (buildComparisonToken rt t.url ignoreQuery = g.token))).map
      minifyTab
  covered : ∀ t ∈ seen, ∃ g ∈ groups, g.token = buildComparisonToken rt t.url ignoreQuery
  first : ∀ g ∈ groups, ∃ t,
    seen.find? (fun t => decide (buildComparisonToken rt t.url ignoreQuery = g.token)) = some t ∧
      g.hostname = hostnameFromUrl rt t.url ∧ g.normalizedUrl = normalizeUrl rt t.url ignoreQuery

/-- The snapshots, in input order, of the eligible tabs whose token is `token`. -/
def tokenClass (rt : Runtime) (options : Settings) (tabs : List Tab) (token : String) : List Tab :=
  ((tabs.filter (isEligible rt options.includePinned)).filter
    (fun t => decide (buildComparisonToken rt t.url options.ignoreQuery = token))).map minifyTab

/-- A tab with the given id, address and `lastAccessed`, in window 1, not pinned. -/
def mkTab (id : Int) (url : String) (lastAccessed : Option Int) : Tab :=
  { id := id, title := "", url := url, windowId := 1, index := 0, active := false,
    pinned := false, discarded := false, audible := false, lastAccessed := lastAccessed }

/-- The three tabs of the worked scenario: two on `a.com`, one on `b.com`. -/
def sampleTabs : List Tab :=
  [mkTab 1 "https://a.com/" (some 100), mkTab 2 "https://a.com" (some 50),
   mkTab 3 "https://b.com/" (some 10)]

/-- The duplicate set of `sampleTabs`. -/
def sampleSet : Group :=
  { token := "https://a.com/", normalizedUrl := "https://a.com/", hostname := "a.com",
    tabs := [mkTab 2 "https://a.com" (some 50), mkTab 1 "https://a.com/" (some 100)] }

/-- Snapshots with colliding `lastAccessed`: absent, `0` and `7`. -/
def keeperTabs : List Tab :=
  [mkTab 5 "https://a.com/" none, mkTab 4 "https://a.com/" (some 0),
   mkTab 6 "https://a.com/" (some 7), mkTab 2 "https://a.com/" (some 7)]

/-- A browser-internal page. -/
def settingsTab : Tab := mkTab 9 "chrome://settings" (some 5)

/-- Five tabs forming two duplicate sets of two members each, on `b.com` and on `a.com`. -/
def twoSetTabs : List Tab :=
  [mkTab 1 "https://b.com/" none, mkTab 2 "https://a.com/" (some 7),
   mkTab 3 "https://b.com/" (some 0), mkTab 4 "https://a.com" (some 3),
   mkTab 5 "https://x.com/a" (some 1)]

/-- The duplicate sets of `twoSetTabs`, in the order returned. -/
def twoSets : List Group :=
  [{ token := "https://a.com/", normalizedUrl := "https://a.com/", hostname := "a.com",
     tabs := [mkTab 4 "https://a.com" (some 3), mkTab 2 "https://a.com/" (some 7)] },
   { token := "https://b.com/", normalizedUrl := "https://b.com/", hostname := "b.com",
     tabs := [mkTab 1 "https://b.com/" (some 0), mkTab 3 "https://b.com/" (some 0)] }]

/-- The set of `twoSetTabs` on `b.com`, whose members both have `lastAccessed` 0. -/
def tiedSet : Group :=
  { token := "https://b.com/", normalizedUrl := "https://b.com/", hostname := "b.com",
    tabs := [mkTab 1 "https://b.com/" (some 0), mkTab 3 "https://b.com/" (some 0)] }

/-- A host that lists `tabs` and closes whatever it is asked to. -/
def obligingHost (tabs : List Tab) : Host :=
  { tabsQuery := fun _ => Except.ok tabs, tabsRemove := fun _ => Except.ok () }

/-- A host that lists `tabs` and fails every close request, as when a tab has gone. -/
def refusingHost (tabs : List Tab) : Host :=
  { tabsQuery := fun _ => Except.ok tabs, tabsRemove := fun _ => Except.error "No tab with id" }

/-- Settings as the popup holds them after start-up. -/
def sampleSettingsObject : SettingsObject :=
  [("scope", FormValue.text "all-windows"), ("strategy", FormValue.text "keep-oldest"),
   ("includePinned", FormValue.flag false), ("ignoreQuery", FormValue.flag false)]

/-! ## URL normalisation lemmas -/

theorem replaceTrailingSlashes_snoc (l : List Char) :
    replaceTrailingSlashes (l ++ ['/']) = replaceTrailingSlashes l := by
  induction l with
  | nil => simp [replaceTrailingSlashes]
  | cons c cs ih =>
    simp [replaceTrailingSlashes, ih]

theorem replaceTrailingSlashes_eq_nil (l : List Char) :
    replaceTrailingSlashes l = [] ↔ ∀ c ∈ l, c = '/' := by
  induction l with
  | nil => simp [replaceTrailingSlashes]
  | cons c cs ih =>
    simp only [replaceTrailingSlashes]
    split
    · rename_i h
      simpa using h
    · rename_i h
      simpa using h

theorem replaceTrailingSlashes_getLast (l : List Char) :
    (replaceTrailingSlashes l).getLast? ≠ some '/' := by
  induction l with
  | nil => simp [replaceTrailingSlashes]
  | cons c cs ih =>
    simp only [replaceTrailingSlashes]
    split
    · simp
    · rename_i h
      by_cases hcs : replaceTrailingSlashes cs = []
      · rw [hcs]
        have hall := (replaceTrailingSlashes_eq_nil cs).1 hcs
        simp only [List.getLast?_singleton, ne_eq, Option.some.injEq]
        intro hc
        apply h
        simp [hc]
        exact hall
      · cases hr : replaceTrailingSlashes cs with
        | nil => exact absurd hr hcs
        | cons d ds =>
          rw [List.getLast?_cons_cons, ← hr]
          exact ih

theorem trimTrailingSlash_mk (l : List Char) :
    trimTrailingSlash (String.mk l) =
      if l = [] ∨ l = ['/'] then "/"
      else if replaceTrailingSlashes l = [] then "/" else String.mk (replaceTrailingSlashes l) := by
  simp [trimTrailingSlash, String.ext_iff]

theorem trimTrailingSlash_append_slash (p : String) :
    trimTrailingSlash (p ++ "/") = trimTrailingSlash p := by
  obtain ⟨l⟩ := p
  have happ : (String.mk l ++ "/") = String.mk (l ++ ['/']) := by
    apply String.ext; simp
  rw [happ, trimTrailingSlash_mk, trimTrailingSlash_mk, replaceTrailingSlashes_snoc]
  by_cases h1 : l = []
  · subst h1; simp [replaceTrailingSlashes]
  · by_cases h2 : l = ['/']
    · subst h2; simp [replaceTrailingSlashes]
    · simp [h1, h2]

theorem trimTrailingSlash_append_slashes (p : String) (n : Nat) :
    trimTrailingSlash (p ++ String.mk (List.replicate n '/')) = trimTrailingSlash p := by
  induction n with
  | zero =>
    have : p ++ String.mk (List.replicate 0 '/') = p := by
      apply String.ext; simp
    rw [this]
  | succ k ih =>
    have : p ++ String.mk (List.replicate (k + 1) '/')
        = (p ++ String.mk (List.replicate k '/')) ++ "/" := by
      apply String.ext; simp [List.replicate_succ']
    rw [this, trimTrailingSlash_append_slash, ih]

theorem trimTrailingSlash_no_trailing (p : String) :
    trimTrailingSlash p = "/" ∨ (trimTrailingSlash p).data.getLast? ≠ some '/' := by
  obtain ⟨l⟩ := p
  rw [trimTrailingSlash_mk]
  by_cases h : l = [] ∨ l = ['/']
  · simp [h]
  · by_cases h2 : replaceTrailingSlashes l = []
    · simp [h2]
    · right
      simp only [h, h2, if_false]
      exact replaceTrailingSlashes_getLast l

theorem trimTrailingSlash_all_slashes (p : String) (h : ∀ c ∈ p.data, c = '/') :
    trimTrailingSlash p = "/" := by
  obtain ⟨l⟩ := p
  rw [trimTrailingSlash_mk]
  have := (replaceTrailingSlashes_eq_nil l).2 h
  simp [this]

/-! ## The sample comparator -/

theorem compareChars_total (a b : List Char) : compareChars a b ≤ 0 ∨ compareChars b a ≤ 0 := by
  induction a generalizing b with
  | nil => cases b <;> simp [compareChars]
  | cons x xs ih =>
    cases b with
    | nil => simp [compareChars]
    | cons y ys =>
      simp only [compareChars]
      rcases Nat.lt_trichotomy x.toNat y.toNat with h | h | h
      · simp [h]
      · simp [h]; exact ih ys
      · right; simp [h]

theorem compareChars_trans (a b c : List Char) (hab : compareChars a b ≤ 0)
    (hbc : compareChars b c ≤ 0) : compareChars a c ≤ 0 := by
  induction a generalizing b c with
  | nil => cases c <;> simp [compareChars]
  | cons x xs ih =>
    cases b with
    | nil => simp [compareChars] at hab
    | cons y ys =>
      cases c with
      | nil => simp [compareChars] at hbc
      | cons z zs =>
        simp only [compareChars] at hab hbc ⊢
        split_ifs at hab hbc ⊢ <;> first
          | omega
          | exact ih ys zs hab hbc

/-! ## Keeper selection lemmas -/

theorem foldl_oldestStep (l : List Tab) (x : Tab) :
    ∃ r, l.foldl oldestStep (some x) = some r ∧ (r = x ∨ r ∈ l) ∧
      (lastAccessedOr0 r < lastAccessedOr0 x ∨
        (lastAccessedOr0 r = lastAccessedOr0 x ∧ r.id ≤ x.id)) ∧
      ∀ t ∈ l, lastAccessedOr0 r < lastAccessedOr0 t ∨
        (lastAccessedOr0 r = lastAccessedOr0 t ∧ r.id ≤ t.id) := by
  induction l generalizing x with
  | nil => exact ⟨x, rfl, Or.inl rfl, Or.inr ⟨rfl, le_refl _⟩, by simp⟩
  | cons t ts ih =>
    have hstep : ∃ y, oldestStep (some x) t = some y ∧ (y = x ∨ y = t) ∧
        (lastAccessedOr0 y < lastAccessedOr0 x ∨
          (lastAccessedOr0 y = lastAccessedOr0 x ∧ y.id ≤ x.id)) ∧
        (lastAccessedOr0 y < lastAccessedOr0 t ∨
          (lastAccessedOr0 y = lastAccessedOr0 t ∧ y.id ≤ t.id)) := by
      simp only [oldestStep]
      split_ifs with h1 h2 h3
      · exact ⟨t, rfl, Or.inr rfl, by omega, by omega⟩
      · exact ⟨x, rfl, Or.inl rfl, by omega, by omega⟩
      · exact ⟨t, rfl, Or.inr rfl, by omega, by omega⟩
      · exact ⟨x, rfl, Or.inl rfl, by omega, by omega⟩
    obtain ⟨y, hy, hmem, hyx, hyt⟩ := hstep
    obtain ⟨r, hr, hrmem, hry, hrest⟩ := ih y
    refine ⟨r, ?_, ?_, ?_, ?_⟩
    · simp only [List.foldl_cons, hy, hr]
    · rcases hrmem with h | h
      · rcases hmem with h' | h'
        · left; rw [h, h']
        · right; rw [h, h']; exact List.mem_cons_self _ _
      · right; exact List.mem_cons_of_mem _ h
    · omega
    · intro t' ht'
      rcases List.mem_cons.1 ht' with h | h
      · subst h; omega
      · exact hrest t' h

theorem foldl_newestStep (l : List Tab) (x : Tab) :
    ∃ r, l.foldl newestStep (some x) = some r ∧ (r = x ∨ r ∈ l) ∧
      (lastAccessedOr0 r > lastAccessedOr0 x ∨
        (lastAccessedOr0 r = lastAccessedOr0 x ∧ r.id ≥ x.id)) ∧
      ∀ t ∈ l, lastAccessedOr0 r > lastAccessedOr0 t ∨
        (lastAccessedOr0 r = lastAccessedOr0 t ∧ r.id ≥ t.id) := by
  induction l generalizing x with
  | nil => exact ⟨x, rfl, Or.inl rfl, Or.inr ⟨rfl, le_refl _⟩, by simp⟩
  | cons t ts ih =>
    have hstep : ∃ y, newestStep (some x) t = some y ∧ (y = x ∨ y = t) ∧
        (lastAccessedOr0 y > lastAccessedOr0 x ∨
          (lastAccessedOr0 y = lastAccessedOr0 x ∧ y.id ≥ x.id)) ∧
        (lastAccessedOr0 y > lastAccessedOr0 t ∨
          (lastAccessedOr0 y = lastAccessedOr0 t ∧ y.id ≥ t.id)) := by
      simp only [newestStep]
      split_ifs with h1 h2 h3
      · exact ⟨t, rfl, Or.inr rfl, by omega, by omega⟩
      · exact ⟨x, rfl, Or.inl rfl, by omega, by omega⟩
      · exact ⟨t, rfl, Or.inr rfl, by omega, by omega⟩
      · exact ⟨x, rfl, Or.inl rfl, by omega, by omega⟩
    obtain ⟨y, hy, hmem, hyx, hyt⟩ := hstep
    obtain ⟨r, hr, hrmem, hry, hrest⟩ := ih y
    refine ⟨r, ?_, ?_, ?_, ?_⟩
    · simp only [List.foldl_cons, hy, hr]
    · rcases hrmem with h | h
      · rcases hmem with h' | h'
        · left; rw [h, h']
        · right; rw [h, h']; exact List.mem_cons_self _ _
      · right; exact List.mem_cons_of_mem _ h
    · omega
    · intro t' ht'
      rcases List.mem_cons.1 ht' with h | h
      · subst h; omega
      · exact hrest t' h

/-- On a non-empty array `pickKeeper` returns a member, and that member is extremal. -/
theorem pickKeeper_spec (tabs : List Tab) (strategy : String) (h : tabs ≠ []) :
    ∃ r, pickKeeper tabs strategy = some r ∧ r ∈ tabs ∧
      (strategy ≠ "keep-newest" →
        ∀ t ∈ tabs, lastAccessedOr0 r < lastAccessedOr0 t ∨
          (lastAccessedOr0 r = lastAccessedOr0 t ∧ r.id ≤ t.id)) ∧
      (strategy = "keep-newest" →
        ∀ t ∈ tabs, lastAccessedOr0 r > lastAccessedOr0 t ∨
          (lastAccessedOr0 r = lastAccessedOr0 t ∧ r.id ≥ t.id)) := by
  cases tabs with
  | nil => exact absurd rfl h
  | cons x xs =>
    by_cases hs : strategy = "keep-newest"
    · obtain ⟨r, hr, hmem, -, hall⟩ := foldl_newestStep (x :: xs) x
      refine ⟨r, ?_, ?_, fun hne => absurd hs hne, fun _ => hall⟩
      · simp only [pickKeeper, hs, if_true, List.head?_cons]; exact hr
      · rcases hmem with h' | h'
        · rw [h']; exact List.mem_cons_self _ _
        · exact h'
    · obtain ⟨r, hr, hmem, -, hall⟩ := foldl_oldestStep (x :: xs) x
      refine ⟨r, ?_, ?_, fun _ => hall, fun he => absurd he hs⟩
      · simp only [pickKeeper, hs, if_false, List.head?_cons]; exact hr
      · rcases hmem with h' | h'
        · rw [h']; exact List.mem_cons_self _ _
        · exact h'

/-! ## The close-list -/

theorem foldl_push_ids (keeperId : Int) (tabs : List Tab) (ids : List Int) :
    tabs.foldl (fun acc tab => if tab.id ≠ keeperId then acc ++ [tab.id] else acc) ids
      = ids ++ (tabs.filter (fun tab => decide (tab.id ≠ keeperId))).map (fun tab => tab.id) := by
  induction tabs generalizing ids with
  | nil => simp
  | cons t ts ih =>
    simp only [List.foldl_cons, ih]
    by_cases h : t.id = keeperId <;> simp [h, List.filter_cons]

theorem selectStep_eq (strategy : String) (ids : List Int) (group : Group) :
    selectStep strategy ids group
      = .ok (ids ++ (if group.tabs.length < 2 then [] else idsOtherThanKeeper strategy group)) := by
  unfold selectStep
  by_cases h : group.tabs.length < 2
  · simp [h]; rfl
  · have hne : group.tabs ≠ [] := by
      intro h0; rw [h0] at h; simp at h
    obtain ⟨k, hk, -⟩ := pickKeeper_spec group.tabs strategy hne
    simp only [h, if_false, hk, idsOtherThanKeeper, foldl_push_ids]
    rfl

theorem foldlM_selectStep (strategy : String) (groups : List Group) (ids : List Int) :
    groups.foldlM (selectStep strategy) ids
      = .ok (ids ++ (groups.filter (fun g => decide (2 ≤ g.tabs.length))).flatMap
          (idsOtherThanKeeper strategy)) := by
  induction groups generalizing ids with
  | nil => simp; rfl
  | cons g gs ih =>
    rw [List.foldlM_cons, selectStep_eq]
    show List.foldlM (selectStep strategy) _ gs = _
    rw [ih]
    by_cases h : g.tabs.length < 2
    · have h' : ¬ 2 ≤ g.tabs.length := by omega
      simp [h, h', List.filter_cons]
    · have h' : 2 ≤ g.tabs.length := by omega
      simp [h, h', List.filter_cons, List.flatMap_cons]

theorem selectTabsToClose_eq (groups : List Group) (strategy : String) :
    selectTabsToClose groups strategy
      = .ok ((groups.filter (fun g => decide (2 ≤ g.tabs.length))).flatMap
          (idsOtherThanKeeper strategy)) := by
  unfold selectTabsToClose
  rw [foldlM_selectStep]; simp

/-! ## Sorting lemmas -/

theorem jsSort_perm {α : Type} (compare : α → α → Int) (xs : List α) :
    (jsSort compare xs).Perm xs :=
  List.perm_insertionSort _ xs

theorem orderedInsert_filter {α : Type} (r : α → α → Prop) [DecidableRel r] (p : α → Bool)
    (hp : ∀ a b, p a = true → p b = true → r a b) (a : α) (l : List α) :
    (l.orderedInsert r a).filter p = (a :: l).filter p := by
  induction l with
  | nil => simp
  | cons b l ih =>
    simp only [List.orderedInsert]
    split_ifs with hab
    · rfl
    · by_cases hpa : p a = true
      · have hpb : ¬ p b = true := fun hpb => hab (hp a b hpa hpb)
        simp only [List.filter_cons, hpb, hpa, if_true, if_false] at ih ⊢
        exact ih
      · have hpa' : p a = false := by simpa using hpa
        simp only [List.filter_cons, hpa'] at ih ⊢
        simp only [Bool.false_eq_true, if_false] at ih ⊢
        rw [ih]

theorem jsSort_stable {α : Type} (compare : α → α → Int) (p : α → Bool)
    (hp : ∀ a b, p a = true → p b = true → compare a b ≤ 0) (xs : List α) :
    (jsSort compare xs).filter p = xs.filter p := by
  induction xs with
  | nil => rfl
  | cons a l ih =>
    show ((l.insertionSort _).orderedInsert _ a).filter p = _
    rw [orderedInsert_filter _ p hp]
    simp only [List.filter_cons]
    have ih' : (l.insertionSort (fun a b => compare a b ≤ 0)).filter p = l.filter p := ih
    rw [ih']

theorem pairwise_orderedInsert {α : Type} (r : α → α → Prop) [DecidableRel r] (a : α)
    (l : List α)
    (htotal : ∀ x ∈ a :: l, ∀ y ∈ a :: l, r x y ∨ r y x)
    (htrans : ∀ x ∈ a :: l, ∀ y ∈ a :: l, ∀ z ∈ a :: l, r x y → r y z → r x z)
    (hl : l.Pairwise r) : (l.orderedInsert r a).Pairwise r := by
  induction l with
  | nil => simp
  | cons b l ih =>
    have ha : a ∈ a :: b :: l := List.mem_cons_self _ _
    have hb : b ∈ a :: b :: l := List.mem_cons_of_mem _ (List.mem_cons_self _ _)
    have hsub : ∀ x, x ∈ a :: l → x ∈ a :: b :: l := by
      intro x hx
      rcases List.mem_cons.1 hx with h | h
      · rw [h]; exact ha
      · exact List.mem_cons_of_mem _ (List.mem_cons_of_mem _ h)
    rw [List.pairwise_cons] at hl
    simp only [List.orderedInsert]
    split_ifs with hab
    · refine List.pairwise_cons.2 ⟨?_, List.pairwise_cons.2 hl⟩
      intro x hx
      rcases List.mem_cons.1 hx with h | h
      · rw [h]; exact hab
      · exact htrans a ha b hb x (List.mem_cons_of_mem _ (List.mem_cons_of_mem _ h)) hab
          (hl.1 x h)
    · have hba : r b a := (htotal a ha b hb).resolve_left hab
      refine List.pairwise_cons.2 ⟨?_, ?_⟩
      · intro x hx
        rcases (List.mem_orderedInsert r).1 hx with h | h
        · rw [h]; exact hba
        · exact hl.1 x h
      · exact ih (fun x hx y hy => htotal x (hsub x hx) y (hsub y hy))
          (fun x hx y hy z hz => htrans x (hsub x hx) y (hsub y hy) z (hsub z hz)) hl.2

theorem jsSort_sorted {α : Type} (compare : α → α → Int) (xs : List α)
    (htotal : ∀ x ∈ xs, ∀ y ∈ xs, compare x y ≤ 0 ∨ compare y x ≤ 0)
    (htrans : ∀ x ∈ xs, ∀ y ∈ xs, ∀ z ∈ xs,
      compare x y ≤ 0 → compare y z ≤ 0 → compare x z ≤ 0) :
    (jsSort compare xs).Pairwise (fun a b => compare a b ≤ 0) := by
  induction xs with
  | nil => exact List.Pairwise.nil
  | cons a l ih =>
    show ((l.insertionSort _).orderedInsert _ a).Pairwise _
    have hmem : ∀ x, x ∈ a :: l.insertionSort (fun a b => compare a b ≤ 0) → x ∈ a :: l := by
      intro x hx
      rcases List.mem_cons.1 hx with h | h
      · rw [h]; exact List.mem_cons_self _ _
      · exact List.mem_cons_of_mem _ ((List.mem_insertionSort _).1 h)
    apply pairwise_orderedInsert
    · exact fun x hx y hy => htotal x (hmem x hx) y (hmem y hy)
    · exact fun x hx y hy z hz => htrans x (hmem x hx) y (hmem y hy) z (hmem z hz)
    · exact ih (fun x hx y hy => htotal x (List.mem_cons_of_mem _ hx) y (List.mem_cons_of_mem _ hy))
        (fun x hx y hy z hz => htrans x (List.mem_cons_of_mem _ hx) y (List.mem_cons_of_mem _ hy)
          z (List.mem_cons_of_mem _ hz))

/-! ## The grouping loop -/

theorem addToGroups_of_none (rt : Runtime) (ignoreQuery : Bool) (groups : List Group) (tab : Tab)
    (h : groups.find? (fun g => decide (g.token = buildComparisonToken rt tab.url ignoreQuery))
      = none) :
    addToGroups rt ignoreQuery groups tab =
      groups ++ [{ token := buildComparisonToken rt tab.url ignoreQuery,
                   normalizedUrl := normalizeUrl rt tab.url ignoreQuery,
                   hostname := hostnameFromUrl rt tab.url, tabs := [minifyTab tab] }] := by
  simp only [addToGroups, h]

theorem addToGroups_of_some (rt : Runtime) (ignoreQuery : Bool) (groups : List Group) (tab : Tab)
    (g0 : Group)
    (h : groups.find? (fun g => decide (g.token = buildComparisonToken rt tab.url ignoreQuery))
      = some g0) :
    addToGroups rt ignoreQuery groups tab =
      groups.map (fun g => if g.token = buildComparisonToken rt tab.url ignoreQuery
        then { g with tabs := g.tabs ++ [minifyTab tab] } else g) := by
  simp only [addToGroups, h]

theorem addToGroups_inv (rt : Runtime) (ignoreQuery : Bool) (seen : List Tab)
    (groups : List Group) (tab : Tab) (h : GroupsInv rt ignoreQuery seen groups) :
    GroupsInv rt ignoreQuery (seen ++ [tab]) (addToGroups rt ignoreQuery groups tab) := by
  cases hfind : groups.find? (fun g => decide (g.token = buildComparisonToken rt tab.url ignoreQuery)) with
  | none =>
    rw [addToGroups_of_none rt ignoreQuery groups tab hfind]
    have hnone : ∀ g ∈ groups, g.token ≠ buildComparisonToken rt tab.url ignoreQuery := by
      intro g hg
      have := List.find?_eq_none.1 hfind g hg
      simpa using this
    have hfresh : ∀ t ∈ seen,
        buildComparisonToken rt t.url ignoreQuery ≠ buildComparisonToken rt tab.url ignoreQuery := by
      intro t ht heq
      obtain ⟨g, hg, hgt⟩ := h.covered t ht
      exact hnone g hg (hgt.trans heq)
    constructor
    · rw [List.map_append, List.nodup_append]
      refine ⟨h.nodup, by simp, ?_⟩
      intro a ha hb
      simp only [List.map_cons, List.map_nil, List.mem_singleton] at hb
      obtain ⟨g, hg, rfl⟩ := List.mem_map.1 ha
      exact hnone g hg hb
    · intro g hg
      rcases List.mem_append.1 hg with hg | hg
      · have hne := hnone g hg
        rw [List.filter_append, h.tabs_eq g hg]
        have : decide (buildComparisonToken rt tab.url ignoreQuery = g.token) = false := by
          simpa using fun heq => hne heq.symm
        simp [List.filter_cons, this]
      · simp only [List.mem_singleton] at hg
        subst hg
        rw [List.filter_append]
        have hnil : seen.filter (fun t => decide (buildComparisonToken rt t.url ignoreQuery
            = buildComparisonToken rt tab.url ignoreQuery)) = [] := by
          rw [List.filter_eq_nil_iff]
          intro t ht
          simpa using hfresh t ht
        simp [hnil]
    · intro t ht
      rcases List.mem_append.1 ht with ht | ht
      · obtain ⟨g, hg, hgt⟩ := h.covered t ht
        exact ⟨g, List.mem_append_left _ hg, hgt⟩
      · simp only [List.mem_singleton] at ht
        subst ht
        exact ⟨_, List.mem_append_right _ (List.mem_singleton_self _), rfl⟩
    · intro g hg
      rcases List.mem_append.1 hg with hg | hg
      · obtain ⟨t, ht, hh⟩ := h.first g hg
        refine ⟨t, ?_, hh⟩
        rw [List.find?_append, ht]; rfl
      · simp only [List.mem_singleton] at hg
        subst hg
        refine ⟨tab, ?_, rfl, rfl⟩
        rw [List.find?_append]
        have hnil : seen.find? (fun t => decide (buildComparisonToken rt t.url ignoreQuery
            = buildComparisonToken rt tab.url ignoreQuery)) = none := by
          rw [List.find?_eq_none]
          intro t ht
          simpa using hfresh t ht
        simp [hnil]
  | some g0 =>
    rw [addToGroups_of_some rt ignoreQuery groups tab g0 hfind]
    constructor
    · have : (groups.map (fun g => if g.token = buildComparisonToken rt tab.url ignoreQuery
          then { g with tabs := g.tabs ++ [minifyTab tab] } else g)).map (fun g => g.token)
          = groups.map (fun g => g.token) := by
        rw [List.map_map]
        apply List.map_congr_left
        intro g _
        simp only [Function.comp]
        split_ifs <;> rfl
      rw [this]; exact h.nodup
    · intro g' hg'
      obtain ⟨g, hg, rfl⟩ := List.mem_map.1 hg'
      by_cases heq : g.token = buildComparisonToken rt tab.url ignoreQuery
      · simp only [heq, if_true]
        rw [List.filter_append, List.map_append, ← heq, ← h.tabs_eq g hg]
        simp [List.filter_cons, heq]
      · simp only [heq, if_false]
        rw [List.filter_append, h.tabs_eq g hg]
        have : decide (buildComparisonToken rt tab.url ignoreQuery = g.token) = false := by
          simpa using fun h' => heq h'.symm
        simp [List.filter_cons, this]
    · intro t ht
      have hg0 : g0 ∈ groups := List.mem_of_find?_eq_some hfind
      have hg0t : g0.token = buildComparisonToken rt tab.url ignoreQuery := by
        simpa using List.find?_some hfind
      have key : ∀ g ∈ groups, ∃ g' ∈ groups.map (fun g =>
          if g.token = buildComparisonToken rt tab.url ignoreQuery
          then { g with tabs := g.tabs ++ [minifyTab tab] } else g), g'.token = g.token := by
        intro g hg
        refine ⟨_, List.mem_map_of_mem _ hg, ?_⟩
        split_ifs <;> rfl
      rcases List.mem_append.1 ht with ht | ht
      · obtain ⟨g, hg, hgt⟩ := h.covered t ht
        obtain ⟨g', hg', hgt'⟩ := key g hg
        exact ⟨g', hg', hgt'.trans hgt⟩
      · simp only [List.mem_singleton] at ht
        subst ht
        obtain ⟨g', hg', hgt'⟩ := key g0 hg0
        exact ⟨g', hg', hgt'.trans hg0t⟩
    · intro g' hg'
      obtain ⟨g, hg, rfl⟩ := List.mem_map.1 hg'
      obtain ⟨t, ht, hh⟩ := h.first g hg
      have htok : (if g.token = buildComparisonToken rt tab.url ignoreQuery
          then { g with tabs := g.tabs ++ [minifyTab tab] } else g).token = g.token := by
        split_ifs <;> rfl
      have hhost : (if g.token = buildComparisonToken rt tab.url ignoreQuery
          then { g with tabs := g.tabs ++ [minifyTab tab] } else g).hostname = g.hostname := by
        split_ifs <;> rfl
      have hnorm : (if g.token = buildComparisonToken rt tab.url ignoreQuery
          then { g with tabs := g.tabs ++ [minifyTab tab] } else g).normalizedUrl
            = g.normalizedUrl := by
        split_ifs <;> rfl
      refine ⟨t, ?_, ?_, ?_⟩
      · rw [htok, List.find?_append, ht]; rfl
      · rw [hhost]; exact hh.1
      · rw [hnorm]; exact hh.2

theorem buildGroups_inv (rt : Runtime) (ignoreQuery : Bool) (eligible : List Tab) :
    GroupsInv rt ignoreQuery eligible (buildGroups rt ignoreQuery eligible) := by
  induction eligible using List.reverseRecOn with
  | nil =>
    exact ⟨List.nodup_nil, by simp [buildGroups], by simp, by simp [buildGroups]⟩
  | append_singleton l t ih =>
    have : buildGroups rt ignoreQuery (l ++ [t])
        = addToGroups rt ignoreQuery (buildGroups rt ignoreQuery l) t := by
      simp [buildGroups, List.foldl_append]
    rw [this]
    exact addToGroups_inv rt ignoreQuery l _ t ih

/-! ## The duplicate sets -/

theorem duplicateSets_eq (rt : Runtime) (tabs : List Tab) (options : Settings) :
    (groupTabsByDuplicate rt tabs options).duplicateSets =
      jsSort (compareGroups rt)
        (((buildGroups rt options.ignoreQuery
            (tabs.filter (isEligible rt options.includePinned))).filter
              (fun group => decide (group.tabs.length > 1))).map
          (fun group => { group with tabs := jsSort compareLastAccessed group.tabs })) := rfl

theorem mem_duplicateSets (rt : Runtime) (tabs : List Tab) (options : Settings) (s : Group) :
    s ∈ (groupTabsByDuplicate rt tabs options).duplicateSets ↔
      ∃ g ∈ buildGroups rt options.ignoreQuery (tabs.filter (isEligible rt options.includePinned)),
        1 < g.tabs.length ∧ s = { g with tabs := jsSort compareLastAccessed g.tabs } := by
  rw [duplicateSets_eq, (jsSort_perm _ _).mem_iff, List.mem_map]
  constructor
  · rintro ⟨g, hg, rfl⟩
    rw [List.mem_filter] at hg
    exact ⟨g, hg.1, by simpa using hg.2, rfl⟩
  · rintro ⟨g, hg, hlen, rfl⟩
    exact ⟨g, List.mem_filter.2 ⟨hg, by simpa using hlen⟩, rfl⟩

theorem duplicateSets_tabs (rt : Runtime) (tabs : List Tab) (options : Settings) (s : Group)
    (hs : s ∈ (groupTabsByDuplicate rt tabs options).duplicateSets) :
    s.tabs = jsSort compareLastAccessed (tokenClass rt options tabs s.token) ∧
      2 ≤ (tokenClass rt options tabs s.token).length := by
  obtain ⟨g, hg, hlen, rfl⟩ := (mem_duplicateSets rt tabs options s).1 hs
  have h := (buildGroups_inv rt options.ignoreQuery
    (tabs.filter (isEligible rt options.includePinned))).tabs_eq g hg
  simp only [tokenClass]
  rw [← h]
  exact ⟨rfl, hlen⟩

theorem duplicateSets_perm (rt : Runtime) (tabs : List Tab) (options : Settings) (s : Group)
    (hs : s ∈ (groupTabsByDuplicate rt tabs options).duplicateSets) :
    s.tabs.Perm (tokenClass rt options tabs s.token) := by
  rw [(duplicateSets_tabs rt tabs options s hs).1]
  exact jsSort_perm _ _

theorem duplicateSets_length (rt : Runtime) (tabs : List Tab) (options : Settings) (s : Group)
    (hs : s ∈ (groupTabsByDuplicate rt tabs options).duplicateSets) :
    2 ≤ s.tabs.length := by
  rw [(duplicateSets_perm rt tabs options s hs).length_eq]
  exact (duplicateSets_tabs rt tabs options s hs).2

theorem duplicateSets_first (rt : Runtime) (tabs : List Tab) (options : Settings) (s : Group)
    (hs : s ∈ (groupTabsByDuplicate rt tabs options).duplicateSets) :
    ∃ t, (tabs.filter (isEligible rt options.includePinned)).find?
        (fun t => decide (buildComparisonToken rt t.url options.ignoreQuery = s.token)) = some t ∧
      s.hostname = hostnameFromUrl rt t.url ∧
      s.normalizedUrl = normalizeUrl rt t.url options.ignoreQuery := by
  obtain ⟨g, hg, -, rfl⟩ := (mem_duplicateSets rt tabs options s).1 hs
  exact (buildGroups_inv rt options.ignoreQuery
    (tabs.filter (isEligible rt options.includePinned))).first g hg

theorem duplicateSets_nodup (rt : Runtime) (tabs : List Tab) (options : Settings) :
    ((groupTabsByDuplicate rt tabs options).duplicateSets.map (fun g => g.token)).Nodup := by
  rw [duplicateSets_eq]
  have hperm := (jsSort_perm (compareGroups rt)
    (((buildGroups rt options.ignoreQuery
        (tabs.filter (isEligible rt options.includePinned))).filter
          (fun group => decide (group.tabs.length > 1))).map
      (fun group => { group with tabs := jsSort compareLastAccessed group.tabs }))).map
        (fun g => g.token)
  rw [hperm.nodup_iff, List.map_map]
  have hmap : ((fun g : Group => g.token) ∘
      (fun group : Group => { group with tabs := jsSort compareLastAccessed group.tabs }))
      = (fun g => g.token) := rfl
  rw [hmap]
  exact ((buildGroups_inv rt options.ignoreQuery
    (tabs.filter (isEligible rt options.includePinned))).nodup).sublist
      ((List.filter_sublist _).map _)

theorem duplicateSets_complete (rt : Runtime) (tabs : List Tab) (options : Settings)
    (token : String) (h : 2 ≤ (tokenClass rt options tabs token).length) :
    ∃ s ∈ (groupTabsByDuplicate rt tabs options).duplicateSets, s.token = token := by
  have hne : tokenClass rt options tabs token ≠ [] := by
    intro h0; rw [h0] at h; simp at h
  obtain ⟨m, hm⟩ := List.exists_mem_of_ne_nil _ hne
  simp only [tokenClass, List.mem_map, List.mem_filter] at hm
  obtain ⟨t, ⟨ht, htok⟩, -⟩ := hm
  have hinv := buildGroups_inv rt options.ignoreQuery
    (tabs.filter (isEligible rt options.includePinned))
  obtain ⟨g, hg, hgt⟩ := hinv.covered t (List.mem_filter.2 ht)
  have htok' : buildComparisonToken rt t.url options.ignoreQuery = token := by simpa using htok
  have hgtok : g.token = token := hgt.trans htok'
  refine ⟨{ g with tabs := jsSort compareLastAccessed g.tabs }, ?_, hgtok⟩
  rw [mem_duplicateSets]
  refine ⟨g, hg, ?_, rfl⟩
  rw [hinv.tabs_eq g hg, hgtok]
  exact h

/-! ## Members of a duplicate set -/

theorem isEligible_minifyTab (rt : Runtime) (includePinned : Bool) (t : Tab) :
    isEligible rt includePinned (minifyTab t) = isEligible rt includePinned t := rfl

theorem lastAccessedOr0_minifyTab (t : Tab) :
    lastAccessedOr0 (minifyTab t) = lastAccessedOr0 t := rfl

theorem mem_tokenClass (rt : Runtime) (options : Settings) (tabs : List Tab) (token : String)
    (m : Tab) :
    m ∈ tokenClass rt options tabs token ↔
      ∃ t ∈ tabs, isEligible rt options.includePinned t = true ∧
        buildComparisonToken rt t.url options.ignoreQuery = token ∧ minifyTab t = m := by
  simp only [tokenClass, List.mem_map, List.mem_filter, decide_eq_true_eq]
  constructor
  · rintro ⟨t, ⟨⟨h1, h2⟩, h3⟩, h4⟩; exact ⟨t, h1, h2, h3, h4⟩
  · rintro ⟨t, h1, h2, h3, h4⟩; exact ⟨t, ⟨⟨h1, h2⟩, h3⟩, h4⟩

theorem duplicateSets_member (rt : Runtime) (tabs : List Tab) (options : Settings) (s : Group)
    (hs : s ∈ (groupTabsByDuplicate rt tabs options).duplicateSets) (m : Tab) (hm : m ∈ s.tabs) :
    ∃ t ∈ tabs, isEligible rt options.includePinned t = true ∧
      buildComparisonToken rt t.url options.ignoreQuery = s.token ∧ minifyTab t = m :=
  (mem_tokenClass rt options tabs s.token m).1
    ((duplicateSets_perm rt tabs options s hs).mem_iff.1 hm)

theorem tokenClass_sorted (rt : Runtime) (options : Settings) (tabs : List Tab) (token : String) :
    (jsSort compareLastAccessed (tokenClass rt options tabs token)).Pairwise
      (fun a b => lastAccessedOr0 a ≤ lastAccessedOr0 b) := by
  have hsome : ∀ m ∈ tokenClass rt options tabs token,
      m.lastAccessed = some (lastAccessedOr0 m) := by
    intro m hm
    obtain ⟨t, -, -, -, rfl⟩ := (mem_tokenClass rt options tabs token m).1 hm
    rfl
  have hcmp : ∀ a ∈ tokenClass rt options tabs token, ∀ b ∈ tokenClass rt options tabs token,
      compareLastAccessed a b = lastAccessedOr0 a - lastAccessedOr0 b := by
    intro a ha b hb
    simp only [compareLastAccessed, hsome a ha, hsome b hb]
  have hsorted := jsSort_sorted compareLastAccessed (tokenClass rt options tabs token)
    (fun x hx y hy => by rw [hcmp x hx y hy, hcmp y hy x hx]; omega)
    (fun x hx y hy z hz => by rw [hcmp x hx y hy, hcmp y hy z hz, hcmp x hx z hz]; omega)
  have hmem : ∀ x, x ∈ jsSort compareLastAccessed (tokenClass rt options tabs token) →
      x ∈ tokenClass rt options tabs token := fun x hx => (jsSort_perm _ _).mem_iff.1 hx
  refine List.Pairwise.imp_of_mem ?_ hsorted
  intro a b ha hb hab
  rw [hcmp a (hmem a ha) b (hmem b hb)] at hab
  omega

theorem compareLastAccessed_of_eq (a b : Tab) (v : Int)
    (ha : decide (lastAccessedOr0 a = v) = true) (hb : decide (lastAccessedOr0 b = v) = true) :
    compareLastAccessed a b ≤ 0 := by
  simp only [decide_eq_true_eq, lastAccessedOr0] at ha hb
  unfold compareLastAccessed
  cases hx : a.lastAccessed <;> cases hy : b.lastAccessed <;> simp_all

theorem tokenClass_stable (rt : Runtime) (options : Settings) (tabs : List Tab) (token : String)
    (v : Int) :
    (jsSort compareLastAccessed (tokenClass rt options tabs token)).filter
        (fun m => decide (lastAccessedOr0 m = v))
      = (tokenClass rt options tabs token).filter (fun m => decide (lastAccessedOr0 m = v)) :=
  jsSort_stable compareLastAccessed _ (fun a b ha hb => compareLastAccessed_of_eq a b v ha hb) _

theorem tokenClass_eq_filter (rt : Runtime) (options : Settings) (tabs : List Tab)
    (token : String) :
    tokenClass rt options tabs token =
      (tabs.filter (fun t => isEligible rt options.includePinned t &&
        decide (buildComparisonToken rt t.url options.ignoreQuery = token))).map minifyTab := by
  simp only [tokenClass, List.filter_filter]
  congr 1
  apply List.filter_congr
  intro t _
  exact Bool.and_comm _ _

theorem tokenClass_filter_lastAccessed (rt : Runtime) (options : Settings) (tabs : List Tab)
    (token : String) (v : Int) :
    (tokenClass rt options tabs token).filter (fun m => decide (lastAccessedOr0 m = v)) =
      (tabs.filter (fun t => isEligible rt options.includePinned t &&
        decide (buildComparisonToken rt t.url options.ignoreQuery = token) &&
        decide (lastAccessedOr0 t = v))).map minifyTab := by
  rw [tokenClass_eq_filter, List.filter_map, List.filter_filter]
  congr 1
  apply List.filter_congr
  intro t _
  simp only [Function.comp, lastAccessedOr0_minifyTab]
  exact Bool.and_comm _ _

theorem tokenClass_ids_nodup (rt : Runtime) (options : Settings) (tabs : List Tab)
    (token : String) (h : (tabs.map (fun t => t.id)).Nodup) :
    ((tokenClass rt options tabs token).map (fun t => t.id)).Nodup := by
  rw [tokenClass_eq_filter, List.map_map]
  have : ((fun t : Tab => t.id) ∘ minifyTab) = (fun t => t.id) := rfl
  rw [this]
  exact h.sublist ((List.filter_sublist _).map _)

/-! ## Counting closures -/

theorem foldl_add_eq_sum {α : Type} (f : α → Int) (l : List α) (a : Int) :
    l.foldl (fun total x => total + f x) a = a + (l.map f).sum := by
  induction l generalizing a with
  | nil => simp
  | cons x xs ih => simp only [List.foldl_cons, ih, List.map_cons, List.sum_cons]; omega

theorem possibleClosures_eq (rt : Runtime) (tabs : List Tab) (options : Settings) :
    (groupTabsByDuplicate rt tabs options).possibleClosures =
      ((groupTabsByDuplicate rt tabs options).duplicateSets.map
        (fun group => (group.tabs.length : Int) - 1)).sum := by
  have h : (groupTabsByDuplicate rt tabs options).possibleClosures =
      (groupTabsByDuplicate rt tabs options).duplicateSets.foldl
        (fun total group => total + ((group.tabs.length : Int) - 1)) 0 := rfl
  rw [h, foldl_add_eq_sum]; simp

theorem length_filter_id_ne (l : List Tab) (k : Tab) (hk : k ∈ l)
    (hnd : (l.map (fun t => t.id)).Nodup) :
    (l.filter (fun t => decide (t.id ≠ k.id))).length + 1 = l.length := by
  induction l with
  | nil => simp at hk
  | cons t ts ih =>
    rw [List.map_cons, List.nodup_cons] at hnd
    by_cases hid : t.id = k.id
    · have hall : ∀ x ∈ ts, decide (x.id ≠ k.id) = true := by
        intro x hx
        simp only [decide_eq_true_eq]
        intro hxk
        apply hnd.1
        rw [hid, ← hxk]
        exact List.mem_map_of_mem _ hx
      have hts : ts.filter (fun t => decide (t.id ≠ k.id)) = ts := List.filter_eq_self.2 hall
      rw [List.filter_cons_of_neg (by simpa using hid), hts]
      rfl
    · have hkts : k ∈ ts := by
        rcases List.mem_cons.1 hk with h | h
        · exact absurd (by rw [h]) hid
        · exact h
      have := ih hkts hnd.2
      rw [List.filter_cons_of_pos (by simpa using hid), List.length_cons, List.length_cons, this]

theorem length_idsOtherThanKeeper (strategy : String) (g : Group) (hne : g.tabs ≠ [])
    (hnd : (g.tabs.map (fun t => t.id)).Nodup) :
    ((idsOtherThanKeeper strategy g).length : Int) = (g.tabs.length : Int) - 1 := by
  obtain ⟨k, hk, hmem, -⟩ := pickKeeper_spec g.tabs strategy hne
  have := length_filter_id_ne g.tabs k hmem hnd
  simp only [idsOtherThanKeeper, hk, List.length_map]
  omega

theorem length_flatMap_idsOtherThanKeeper (strategy : String) (groups : List Group)
    (h : ∀ g ∈ groups, g.tabs ≠ [] ∧ (g.tabs.map (fun t => t.id)).Nodup) :
    ((groups.flatMap (idsOtherThanKeeper strategy)).length : Int) =
      (groups.map (fun group => (group.tabs.length : Int) - 1)).sum := by
  induction groups with
  | nil => simp
  | cons g gs ih =>
    have hg := h g (List.mem_cons_self _ _)
    have ih' := ih (fun x hx => h x (List.mem_cons_of_mem _ hx))
    simp only [List.flatMap_cons, List.length_append, List.map_cons, List.sum_cons,
      Nat.cast_add, ih', length_idsOtherThanKeeper strategy g hg.1 hg.2]

theorem filter_duplicateSets_self (rt : Runtime) (tabs : List Tab) (options : Settings) :
    (groupTabsByDuplicate rt tabs options).duplicateSets.filter
        (fun g => decide (2 ≤ g.tabs.length))
      = (groupTabsByDuplicate rt tabs options).duplicateSets := by
  apply List.filter_eq_self.2
  intro s hs
  simpa using duplicateSets_length rt tabs options s hs

theorem duplicateSets_ids_nodup (rt : Runtime) (tabs : List Tab) (options : Settings)
    (hnd : (tabs.map (fun t => t.id)).Nodup) (s : Group)
    (hs : s ∈ (groupTabsByDuplicate rt tabs options).duplicateSets) :
    s.tabs ≠ [] ∧ (s.tabs.map (fun t => t.id)).Nodup := by
  constructor
  · intro h0
    have := duplicateSets_length rt tabs options s hs
    rw [h0] at this; simp at this
  · have hperm := (duplicateSets_perm rt tabs options s hs).map (fun t => t.id)
    rw [hperm.nodup_iff]
    exact tokenClass_ids_nodup rt options tabs s.token hnd

/-! ## Order of the duplicate sets -/

theorem compareGroups_le_iff (rt : Runtime) (a b : Group) :
    compareGroups rt a b ≤ 0 ↔
      b.tabs.length < a.tabs.length ∨
        (b.tabs.length = a.tabs.length ∧ rt.localeCompare a.hostname b.hostname ≤ 0) := by
  unfold compareGroups
  simp only
  split_ifs with h
  · constructor
    · intro h'; left; omega
    · rintro (h' | h')
      · omega
      · omega
  · constructor
    · intro h'; right; exact ⟨by omega, h'⟩
    · rintro (h' | h')
      · omega
      · exact h'.2

theorem duplicateSets_sorted (rt : Runtime) (tabs : List Tab) (options : Settings)
    (htotal : ∀ a b, rt.localeCompare a b ≤ 0 ∨ rt.localeCompare b a ≤ 0)
    (htrans : ∀ a b c, rt.localeCompare a b ≤ 0 → rt.localeCompare b c ≤ 0 →
      rt.localeCompare a c ≤ 0) :
    (groupTabsByDuplicate rt tabs options).duplicateSets.Pairwise
      (fun a b => b.tabs.length < a.tabs.length ∨
        (b.tabs.length = a.tabs.length ∧ rt.localeCompare a.hostname b.hostname ≤ 0)) := by
  rw [duplicateSets_eq]
  have h := jsSort_sorted (compareGroups rt)
    (((buildGroups rt options.ignoreQuery
        (tabs.filter (isEligible rt options.includePinned))).filter
          (fun group => decide (group.tabs.length > 1))).map
      (fun group => { group with tabs := jsSort compareLastAccessed group.tabs }))
    (fun x _ y _ => by
      rw [compareGroups_le_iff, compareGroups_le_iff]
      rcases Nat.lt_trichotomy x.tabs.length y.tabs.length with h | h | h
      · right; left; exact h
      · rcases htotal x.hostname y.hostname with h' | h'
        · left; right; exact ⟨h.symm, h'⟩
        · right; right; exact ⟨h, h'⟩
      · left; left; exact h)
    (fun x _ y _ z _ => by
      rw [compareGroups_le_iff, compareGroups_le_iff, compareGroups_le_iff]
      rintro (h1 | ⟨h1, h1'⟩) (h2 | ⟨h2, h2'⟩)
      · left; omega
      · left; omega
      · left; omega
      · right; exact ⟨by omega, htrans _ _ _ h1' h2'⟩)
  exact h.imp (fun hab => (compareGroups_le_iff rt _ _).1 hab)

/-! ## Excluded tabs -/

theorem isEligible_eq_false (rt : Runtime) (includePinned : Bool) (t : Tab)
    (h : t.url = "" ∨ (t.pinned = true ∧ includePinned = false) ∨ rt.parseUrl t.url = none ∨
      ∃ parsed, rt.parseUrl t.url = some parsed ∧ parsed.protocol ∈ SPECIAL_PROTOCOLS) :
    isEligible rt includePinned t = false := by
  unfold isEligible
  rcases h with h | ⟨h1, h2⟩ | h | ⟨parsed, h1, h2⟩
  · simp [h]
  · simp [h1, h2]
  · simp [shouldSkipUrl, h]
  · simp [shouldSkipUrl, h1, h2]

theorem filter_skip_ineligible (rt : Runtime) (includePinned : Bool) (t : Tab)
    (before after : List Tab) (h : isEligible rt includePinned t = false) :
    (before ++ t :: after).filter (isEligible rt includePinned)
      = (before ++ after).filter (isEligible rt includePinned) := by
  rw [List.filter_append, List.filter_append, List.filter_cons_of_neg (by simp [h])]

theorem duplicateSets_member_eligible (rt : Runtime) (tabs : List Tab) (options : Settings)
    (s : Group) (hs : s ∈ (groupTabsByDuplicate rt tabs options).duplicateSets) (m : Tab)
    (hm : m ∈ s.tabs) : isEligible rt options.includePinned m = true := by
  obtain ⟨t, -, helig, -, rfl⟩ := duplicateSets_member rt tabs options s hs m hm
  rw [isEligible_minifyTab]; exact helig

theorem groupTabsByDuplicate_skip_ineligible (rt : Runtime) (options : Settings) (t : Tab)
    (before after : List Tab) (h : isEligible rt options.includePinned t = false) :
    (groupTabsByDuplicate rt (before ++ t :: after) options).eligibleTabs
        = (groupTabsByDuplicate rt (before ++ after) options).eligibleTabs ∧
      (groupTabsByDuplicate rt (before ++ t :: after) options).duplicateSets
        = (groupTabsByDuplicate rt (before ++ after) options).duplicateSets := by
  have hf := filter_skip_ineligible rt options.includePinned t before after h
  constructor
  · show ((before ++ t :: after).filter (isEligible rt options.includePinned)).length
      = ((before ++ after).filter (isEligible rt options.includePinned)).length
    rw [hf]
  · rw [duplicateSets_eq, duplicateSets_eq, hf]

/-! ## Close requests -/

theorem selectTabsToClose_duplicateSets (rt : Runtime) (tabs : List Tab) (options : Settings)
    (strategy : String) :
    selectTabsToClose (groupTabsByDuplicate rt tabs options).duplicateSets strategy
      = Except.ok ((groupTabsByDuplicate rt tabs options).duplicateSets.flatMap
          (idsOtherThanKeeper strategy)) := by
  rw [selectTabsToClose_eq, filter_duplicateSets_self]

theorem deduplicateTabs_eq (rt : Runtime) (host : Host) (options : Settings) (tabs : List Tab)
    (ids : List Int)
    (hq : host.tabsQuery (buildScopeQuery options.scope) = Except.ok tabs)
    (hids : selectTabsToClose (groupTabsByDuplicate rt tabs options).duplicateSets
      (if options.strategy = "" then DEFAULT_SETTINGS.strategy else options.strategy)
        = Except.ok ids) :
    deduplicateTabs rt host options =
      if ids = [] then
        (Except.ok { removed := 0, summary := groupTabsByDuplicate rt tabs options },
          [HostCall.query (buildScopeQuery options.scope)])
      else
        (match host.tabsRemove ids with
          | Except.error e => Except.error e
          | Except.ok _ =>
            Except.ok { removed := ids.length, summary := groupTabsByDuplicate rt tabs options },
          [HostCall.query (buildScopeQuery options.scope), HostCall.remove ids]) := by
  simp only [deduplicateTabs, computeDuplicateSummary, queryTabs, hq, hids, removeTabs]
  by_cases h : ids = []
  · simp [h]
  · have hlen : ¬ ids.length = 0 := by
      intro h0; exact h (List.length_eq_zero.1 h0)
    simp only [h, hlen, if_false]
    cases host.tabsRemove ids <;> rfl

theorem closeSpecificTabs_log (host : Host) (tabIds : Option (List Int)) :
    ∀ c ∈ (closeSpecificTabs host tabIds).2, c ≠ HostCall.remove [] := by
  intro c hc
  unfold closeSpecificTabs at hc
  cases tabIds with
  | none => simp at hc
  | some ids =>
    by_cases h : ids.length = 0
    · simp [h] at hc
    · simp only [h, if_false, removeTabs, List.mem_singleton] at hc
      rw [hc]
      intro heq
      injection heq with heq
      rw [heq] at h
      exact h rfl

theorem erase_eq_filter_id_ne (l : List Tab) (k : Tab) (hk : k ∈ l)
    (hnd : (l.map (fun t => t.id)).Nodup) :
    l.filter (fun t => decide (t.id ≠ k.id)) = l.erase k := by
  induction l with
  | nil => simp at hk
  | cons t ts ih =>
    rw [List.map_cons, List.nodup_cons] at hnd
    by_cases htk : t = k
    · subst htk
      have hall : ∀ x ∈ ts, decide (x.id ≠ t.id) = true := by
        intro x hx
        simp only [decide_eq_true_eq]
        intro hxk
        apply hnd.1
        rw [← hxk]
        exact List.mem_map_of_mem _ hx
      rw [List.filter_cons_of_neg (by simp), List.filter_eq_self.2 hall, List.erase_cons_head]
    · have hkts : k ∈ ts := by
        rcases List.mem_cons.1 hk with h | h
        · exact absurd h.symm htk
        · exact h
      have hid : t.id ≠ k.id := by
        intro hid
        apply hnd.1
        rw [hid]
        exact List.mem_map_of_mem _ hkts
      rw [List.filter_cons_of_pos (by simpa using hid), ih hkts hnd.2,
        List.erase_cons_tail (by simpa using htk)]

theorem pickKeeper_mem (tabs : List Tab) (strategy : String) (k : Tab)
    (h : pickKeeper tabs strategy = some k) : k ∈ tabs := by
  cases tabs with
  | nil =>
    unfold pickKeeper at h
    split_ifs at h <;> simp at h
  | cons x xs =>
    obtain ⟨r, hr, hmem, -⟩ := pickKeeper_spec (x :: xs) strategy (by simp)
    rw [hr] at h
    injection h with h
    rw [← h]; exact hmem

theorem keeper_not_in_idsOtherThanKeeper (strategy : String) (g : Group) (k : Tab)
    (h : pickKeeper g.tabs strategy = some k) : k.id ∉ idsOtherThanKeeper strategy g := by
  simp only [idsOtherThanKeeper, h, List.mem_map, List.mem_filter]
  rintro ⟨t, ⟨-, ht⟩, hid⟩
  simp only [decide_eq_true_eq] at ht
  exact ht hid

theorem stripLeadingWww_www (rest : String) : stripLeadingWww ("www." ++ rest) = rest := by
  obtain ⟨l⟩ := rest
  unfold stripLeadingWww
  have hd : ("www." ++ String.mk l).data = 'w' :: 'w' :: 'w' :: '.' :: l := by
    simp [String.data_append]
  rw [hd]
  have h1 : "www.".data = ['w', 'w', 'w', '.'] := rfl
  rw [h1]
  simp [List.isPrefixOf]

theorem isEligible_parse (rt : Runtime) (includePinned : Bool) (t : Tab)
    (h : isEligible rt includePinned t = true) :
    t.url ≠ "" ∧ ∃ parsed, rt.parseUrl t.url = some parsed ∧
      parsed.protocol ∉ SPECIAL_PROTOCOLS := by
  unfold isEligible at h
  split_ifs at h with h1 h2 h3
  refine ⟨h1, ?_⟩
  unfold shouldSkipUrl at h3
  cases hp : rt.parseUrl t.url with
  | none => rw [hp] at h3; simp at h3
  | some parsed =>
    rw [hp] at h3
    exact ⟨parsed, rfl, by simpa using h3⟩

theorem duplicateSets_hostname (rt : Runtime) (tabs : List Tab) (options : Settings) (s : Group)
    (hs : s ∈ (groupTabsByDuplicate rt tabs options).duplicateSets) :
    ∃ t parsed, (tabs.filter (isEligible rt options.includePinned)).find?
        (fun t => decide (buildComparisonToken rt t.url options.ignoreQuery = s.token)) = some t ∧
      rt.parseUrl t.url = some parsed ∧ s.hostname = stripLeadingWww parsed.hostname := by
  obtain ⟨t, hfind, hhost, -⟩ := duplicateSets_first rt tabs options s hs
  have hmem := List.mem_of_find?_eq_some hfind
  obtain ⟨-, parsed, hp, -⟩ := isEligible_parse rt options.includePinned t
    (List.mem_filter.1 hmem).2
  refine ⟨t, parsed, hfind, hp, ?_⟩
  rw [hhost, hostnameFromUrl, hp]

theorem normalizeUrl_of_parse (rt : Runtime) (u : String) (parsed : ParsedUrl)
    (ignoreQuery : Bool) (hu : u ≠ "") (hp : rt.parseUrl u = some parsed) :
    normalizeUrl rt u ignoreQuery =
      parsed.protocol ++ "//" ++ parsed.host ++ trimTrailingSlash parsed.pathname ++
        (if ignoreQuery then "" else parsed.search) := by
  simp only [normalizeUrl, buildComparisonToken, hu, if_false, hp]

theorem sampleLocaleCompare_total (a b : String) :
    sampleRuntime.localeCompare a b ≤ 0 ∨ sampleRuntime.localeCompare b a ≤ 0 :=
  compareChars_total a.data b.data

theorem sampleLocaleCompare_trans (a b c : String)
    (hab : sampleRuntime.localeCompare a b ≤ 0) (hbc : sampleRuntime.localeCompare b c ≤ 0) :
    sampleRuntime.localeCompare a c ≤ 0 :=
  compareChars_trans a.data b.data c.data hab hbc


/-! ## The claims -/

/-- C1. On a non-empty list of tab snapshots `determineKeeper` (which is `pickKeeper`) returns
a member `r` of the list that is extremal for the lexicographic order on
(`lastAccessed` or 0, `id`): least under every strategy other than `keep-newest`, greatest
under `keep-newest`.  An absent `lastAccessed` counts as 0. -/
theorem determineKeeper_extremal (tabs : List Tab) (strategy : String) (hne : tabs ≠ []) :
    ∃ r, determineKeeper tabs strategy = some r ∧ r ∈ tabs ∧
      (strategy ≠ "keep-newest" →
        ∀ t ∈ tabs, lastAccessedOr0 r < lastAccessedOr0 t ∨
          (lastAccessedOr0 r = lastAccessedOr0 t ∧ r.id ≤ t.id)) ∧
      (strategy = "keep-newest" →
        ∀ t ∈ tabs, lastAccessedOr0 r > lastAccessedOr0 t ∨
          (lastAccessedOr0 r = lastAccessedOr0 t ∧ r.id ≥ t.id)) ∧
      (∀ t : Tab, t.lastAccessed = none → lastAccessedOr0 t = 0) := by
  obtain ⟨r, hr, hmem, hold, hnew⟩ := pickKeeper_spec tabs strategy hne
  exact ⟨r, hr, hmem, hold, hnew, fun t ht => by simp [lastAccessedOr0, ht]⟩

/-- Instance of C1 on `keeperTabs`, where an absent and a zero `lastAccessed` tie. -/
theorem determineKeeper_extremal_witness :
    keeperTabs ≠ [] ∧
    determineKeeper keeperTabs "keep-oldest" = some (mkTab 4 "https://a.com/" (some 0)) ∧
    determineKeeper keeperTabs "keep-newest" = some (mkTab 6 "https://a.com/" (some 7)) ∧
    ∃ r, determineKeeper keeperTabs "keep-oldest" = some r ∧ r ∈ keeperTabs ∧
      ("keep-oldest" ≠ "keep-newest" →
        ∀ t ∈ keeperTabs, lastAccessedOr0 r < lastAccessedOr0 t ∨
          (lastAccessedOr0 r = lastAccessedOr0 t ∧ r.id ≤ t.id)) ∧
      ("keep-oldest" = "keep-newest" →
        ∀ t ∈ keeperTabs, lastAccessedOr0 r > lastAccessedOr0 t ∨
          (lastAccessedOr0 r = lastAccessedOr0 t ∧ r.id ≥ t.id)) ∧
      (∀ t : Tab, t.lastAccessed = none → lastAccessedOr0 t = 0) :=
  ⟨by decide, by decide, by decide,
    determineKeeper_extremal keeperTabs "keep-oldest" (by decide)⟩

/-- C2. For tab records with pairwise distinct ids, whatever the settings and the strategy,
`possibleClosures` of the summary is the sum over the duplicate sets of member count minus
one, and `selectTabsToClose` on the summary's duplicate sets returns a list of exactly that
length. -/
theorem possibleClosures_eq_closeList_length (rt : Runtime) (tabs : List Tab)
    (options : Settings) (strategy : String) (hnd : (tabs.map (fun t => t.id)).Nodup) :
    (groupTabsByDuplicate rt tabs options).possibleClosures =
        ((groupTabsByDuplicate rt tabs options).duplicateSets.map
          (fun group => (group.tabs.length : Int) - 1)).sum ∧
      ∃ ids, selectTabsToClose (groupTabsByDuplicate rt tabs options).duplicateSets strategy
          = Except.ok ids ∧
        (ids.length : Int) = (groupTabsByDuplicate rt tabs options).possibleClosures := by
  refine ⟨possibleClosures_eq rt tabs options, _,
    selectTabsToClose_duplicateSets rt tabs options strategy, ?_⟩
  rw [possibleClosures_eq]
  exact length_flatMap_idsOtherThanKeeper strategy _
    (fun s hs => duplicateSets_ids_nodup rt tabs options hnd s hs)

/-- Instance of C2 on the worked scenario: one possible closure, close-list `[2]` under `keep-newest`. -/
theorem possibleClosures_eq_closeList_length_witness :
    (sampleTabs.map (fun t => t.id)).Nodup ∧
    (groupTabsByDuplicate sampleRuntime sampleTabs DEFAULT_SETTINGS).possibleClosures = 1 ∧
    selectTabsToClose (groupTabsByDuplicate sampleRuntime sampleTabs DEFAULT_SETTINGS).duplicateSets
      "keep-newest" = Except.ok [2] ∧
    ((groupTabsByDuplicate sampleRuntime sampleTabs DEFAULT_SETTINGS).possibleClosures =
        ((groupTabsByDuplicate sampleRuntime sampleTabs DEFAULT_SETTINGS).duplicateSets.map
          (fun group => (group.tabs.length : Int) - 1)).sum ∧
      ∃ ids, selectTabsToClose
          (groupTabsByDuplicate sampleRuntime sampleTabs DEFAULT_SETTINGS).duplicateSets
            "keep-newest" = Except.ok ids ∧
        (ids.length : Int) =
          (groupTabsByDuplicate sampleRuntime sampleTabs DEFAULT_SETTINGS).possibleClosures) :=
  ⟨by decide, by decide, by rfl,
    possibleClosures_eq_closeList_length sampleRuntime sampleTabs DEFAULT_SETTINGS "keep-newest"
      (by decide)⟩

/-- C3. For every list of groups and every strategy `selectTabsToClose` returns, without
error, the concatenation in group order of the contributions of the groups with at least
two members; the contribution of a group is, in member order, the ids of the members whose
id is not the keeper's (`pickKeeper` of the group).  Groups with fewer than two members
contribute nothing, the keeper's id is never emitted for its group, and when the ids of a
group are pairwise distinct its contribution is the ids of the members with the keeper
removed. -/
theorem selectTabsToClose_spec (groups : List Group) (strategy : String) :
    selectTabsToClose groups strategy =
        Except.ok ((groups.filter (fun g => decide (2 ≤ g.tabs.length))).flatMap
          (fun g => idsOtherThanKeeper strategy g)) ∧
      (∀ g ∈ groups, g.tabs.length < 2 →
        selectTabsToClose [g] strategy = Except.ok []) ∧
      (∀ g ∈ groups, ∀ k, pickKeeper g.tabs strategy = some k →
        idsOtherThanKeeper strategy g =
            (g.tabs.filter (fun tab => decide (tab.id ≠ k.id))).map (fun tab => tab.id) ∧
          k.id ∉ idsOtherThanKeeper strategy g) ∧
      (∀ g ∈ groups, ∀ k, pickKeeper g.tabs strategy = some k →
        (g.tabs.map (fun t => t.id)).Nodup →
          idsOtherThanKeeper strategy g = (g.tabs.erase k).map (fun tab => tab.id)) := by
  refine ⟨selectTabsToClose_eq groups strategy, ?_, ?_, ?_⟩
  · intro g _ hlt
    rw [selectTabsToClose_eq]
    have : ¬ 2 ≤ g.tabs.length := by omega
    simp [List.filter_cons, this]
  · intro g _ k hk
    refine ⟨?_, keeper_not_in_idsOtherThanKeeper strategy g k hk⟩
    simp only [idsOtherThanKeeper, hk]
  · intro g _ k hk hnd
    simp only [idsOtherThanKeeper, hk]
    rw [erase_eq_filter_id_ne g.tabs k (pickKeeper_mem g.tabs strategy k hk) hnd]

/-- Instance of C3 on `twoSets`, also with a one-member group in front. -/
theorem selectTabsToClose_spec_witness :
    selectTabsToClose twoSets "keep-oldest" = Except.ok [2, 3] ∧
    selectTabsToClose twoSets "keep-newest" = Except.ok [4, 1] ∧
    selectTabsToClose
      ({ token := "t", normalizedUrl := "t", hostname := "t", tabs := [mkTab 8 "t" none] } ::
        twoSets) "keep-oldest" = Except.ok [2, 3] ∧
    selectTabsToClose twoSets "keep-oldest" =
      Except.ok ((twoSets.filter (fun g => decide (2 ≤ g.tabs.length))).flatMap
        (fun g => idsOtherThanKeeper "keep-oldest" g)) :=
  ⟨by rfl, by rfl, by rfl, (selectTabsToClose_spec twoSets "keep-oldest").1⟩

/-- C4. The duplicate sets returned by `groupTabsByDuplicate` are exactly the token classes
of size at least two of the eligible tabs: every set has at least two members, every member
has the set's comparison token, distinct sets have distinct tokens, the members of a set
are a rearrangement of the snapshots of the eligible tabs carrying its token, two eligible
input tabs are members of one set if and only if their tokens are equal and at least two
eligible tabs carry that token, and `eligibleTabs ≤ totalTabs = tabs.length`. -/
theorem duplicateSets_are_token_classes (rt : Runtime) (tabs : List Tab) (options : Settings) :
    (∀ s ∈ (groupTabsByDuplicate rt tabs options).duplicateSets, 2 ≤ s.tabs.length) ∧
    (∀ s ∈ (groupTabsByDuplicate rt tabs options).duplicateSets, ∀ m ∈ s.tabs,
      buildComparisonToken rt m.url options.ignoreQuery = s.token) ∧
    ((groupTabsByDuplicate rt tabs options).duplicateSets.Pairwise
      (fun a b => a.token ≠ b.token)) ∧
    (∀ s ∈ (groupTabsByDuplicate rt tabs options).duplicateSets,
      s.tabs.Perm ((tabs.filter (fun t => isEligible rt options.includePinned t &&
        decide (buildComparisonToken rt t.url options.ignoreQuery = s.token))).map minifyTab)) ∧
    (∀ t₁ ∈ tabs, ∀ t₂ ∈ tabs, isEligible rt options.includePinned t₁ = true →
      isEligible rt options.includePinned t₂ = true →
      ((∃ s ∈ (groupTabsByDuplicate rt tabs options).duplicateSets,
          minifyTab t₁ ∈ s.tabs ∧ minifyTab t₂ ∈ s.tabs) ↔
        (buildComparisonToken rt t₁.url options.ignoreQuery
            = buildComparisonToken rt t₂.url options.ignoreQuery ∧
          2 ≤ (tabs.filter (fun t => isEligible rt options.includePinned t &&
            decide (buildComparisonToken rt t.url options.ignoreQuery
              = buildComparisonToken rt t₁.url options.ignoreQuery))).length))) ∧
    (groupTabsByDuplicate rt tabs options).eligibleTabs
      ≤ (groupTabsByDuplicate rt tabs options).totalTabs ∧
    (groupTabsByDuplicate rt tabs options).totalTabs = tabs.length := by
  have htoken : ∀ s ∈ (groupTabsByDuplicate rt tabs options).duplicateSets, ∀ m ∈ s.tabs,
      buildComparisonToken rt m.url options.ignoreQuery = s.token := by
    intro s hs m hm
    obtain ⟨t, -, -, htok, rfl⟩ := duplicateSets_member rt tabs options s hs m hm
    exact htok
  have hlen : ∀ token, (tokenClass rt options tabs token).length =
      (tabs.filter (fun t => isEligible rt options.includePinned t &&
        decide (buildComparisonToken rt t.url options.ignoreQuery = token))).length := by
    intro token
    rw [tokenClass_eq_filter, List.length_map]
  refine ⟨fun s hs => duplicateSets_length rt tabs options s hs, htoken, ?_, ?_, ?_, ?_, rfl⟩
  · have := duplicateSets_nodup rt tabs options
    rw [List.Nodup, List.pairwise_map] at this
    exact this
  · intro s hs
    rw [← tokenClass_eq_filter]
    exact duplicateSets_perm rt tabs options s hs
  · intro t₁ h₁ t₂ h₂ e₁ e₂
    constructor
    · rintro ⟨s, hs, m₁, m₂⟩
      have k₁ : buildComparisonToken rt t₁.url options.ignoreQuery = s.token :=
        htoken s hs (minifyTab t₁) m₁
      have k₂ : buildComparisonToken rt t₂.url options.ignoreQuery = s.token :=
        htoken s hs (minifyTab t₂) m₂
      refine ⟨k₁.trans k₂.symm, ?_⟩
      rw [← hlen, k₁]
      exact (duplicateSets_tabs rt tabs options s hs).2
    · rintro ⟨heq, hcount⟩
      rw [← hlen] at hcount
      obtain ⟨s, hs, hst⟩ := duplicateSets_complete rt tabs options _ hcount
      refine ⟨s, hs, ?_, ?_⟩
      · rw [(duplicateSets_perm rt tabs options s hs).mem_iff, mem_tokenClass]
        exact ⟨t₁, h₁, e₁, hst.symm, rfl⟩
      · rw [(duplicateSets_perm rt tabs options s hs).mem_iff, mem_tokenClass]
        exact ⟨t₂, h₂, e₂, heq.symm.trans hst.symm, rfl⟩
  · show (tabs.filter (isEligible rt options.includePinned)).length ≤ tabs.length
    exact List.length_filter_le _ _

/-- Instance of C4 on `twoSetTabs`. -/
theorem duplicateSets_are_token_classes_witness :
    (groupTabsByDuplicate sampleRuntime twoSetTabs DEFAULT_SETTINGS).duplicateSets = twoSets ∧
    (groupTabsByDuplicate sampleRuntime twoSetTabs DEFAULT_SETTINGS).eligibleTabs = 5 ∧
    (∀ s ∈ (groupTabsByDuplicate sampleRuntime twoSetTabs DEFAULT_SETTINGS).duplicateSets,
      2 ≤ s.tabs.length) ∧
    (groupTabsByDuplicate sampleRuntime twoSetTabs DEFAULT_SETTINGS).totalTabs
      = twoSetTabs.length :=
  ⟨by decide, by decide,
    (duplicateSets_are_token_classes sampleRuntime twoSetTabs DEFAULT_SETTINGS).1,
    (duplicateSets_are_token_classes sampleRuntime twoSetTabs DEFAULT_SETTINGS).2.2.2.2.2.2⟩

/-- C5. A tab whose url is empty, or which is pinned while `includePinned` is false, or whose
URL does not parse, or whose scheme is one of `chrome:`, `chrome-extension:`, `edge:`,
`devtools:`, `about:` fails the eligibility filter; wherever it stands among other tabs it is
not counted in `eligibleTabs`, it leaves the duplicate sets as they are without it, and
neither it nor its snapshot is a member of any duplicate set. -/
theorem excluded_tab_never_grouped (rt : Runtime) (options : Settings) (t : Tab)
    (before after : List Tab)
    (hex : t.url = "" ∨ (t.pinned = true ∧ options.includePinned = false) ∨
      rt.parseUrl t.url = none ∨
      ∃ parsed, rt.parseUrl t.url = some parsed ∧ parsed.protocol ∈ SPECIAL_PROTOCOLS) :
    isEligible rt options.includePinned t = false ∧
    (groupTabsByDuplicate rt (before ++ t :: after) options).eligibleTabs
      = ((before ++ after).filter (isEligible rt options.includePinned)).length ∧
    (groupTabsByDuplicate rt (before ++ t :: after) options).eligibleTabs
      = (groupTabsByDuplicate rt (before ++ after) options).eligibleTabs ∧
    (groupTabsByDuplicate rt (before ++ t :: after) options).duplicateSets
      = (groupTabsByDuplicate rt (before ++ after) options).duplicateSets ∧
    (∀ s ∈ (groupTabsByDuplicate rt (before ++ t :: after) options).duplicateSets,
      minifyTab t ∉ s.tabs ∧ t ∉ s.tabs) := by
  have hel := isEligible_eq_false rt options.includePinned t hex
  have hskip := groupTabsByDuplicate_skip_ineligible rt options t before after hel
  refine ⟨hel, hskip.1.trans rfl, hskip.1, hskip.2, ?_⟩
  intro s hs
  constructor
  · intro hm
    have := duplicateSets_member_eligible rt _ options s hs _ hm
    rw [isEligible_minifyTab, hel] at this
    exact Bool.false_ne_true this
  · intro hm
    have := duplicateSets_member_eligible rt _ options s hs _ hm
    rw [hel] at this
    exact Bool.false_ne_true this

/-- Instance of C5 for a `chrome://settings` tab placed among the tabs of the worked scenario. -/
theorem excluded_tab_never_grouped_witness :
    sampleRuntime.parseUrl settingsTab.url
      = some ⟨"chrome:", "settings", "settings", "/", ""⟩ ∧
    (groupTabsByDuplicate sampleRuntime
        ([settingsTab, mkTab 1 "https://a.com/" (some 100)] ++ settingsTab ::
          [mkTab 2 "https://a.com" (some 50), mkTab 3 "https://b.com/" (some 10)])
        DEFAULT_SETTINGS)
      = { totalTabs := 5, eligibleTabs := 3, duplicateSets := [sampleSet],
          possibleClosures := 1 } ∧
    (isEligible sampleRuntime DEFAULT_SETTINGS.includePinned settingsTab = false ∧
    (groupTabsByDuplicate sampleRuntime
        ([mkTab 1 "https://a.com/" (some 100)] ++ settingsTab ::
          [mkTab 2 "https://a.com" (some 50), mkTab 3 "https://b.com/" (some 10)])
        DEFAULT_SETTINGS).eligibleTabs
      = (([mkTab 1 "https://a.com/" (some 100)] ++
          [mkTab 2 "https://a.com" (some 50), mkTab 3 "https://b.com/" (some 10)]).filter
            (isEligible sampleRuntime DEFAULT_SETTINGS.includePinned)).length) :=
  ⟨by decide, by decide,
    (excluded_tab_never_grouped sampleRuntime DEFAULT_SETTINGS settingsTab
      [mkTab 1 "https://a.com/" (some 100)]
      [mkTab 2 "https://a.com" (some 50), mkTab 3 "https://b.com/" (some 10)]
      (Or.inr (Or.inr (Or.inr ⟨⟨"chrome:", "settings", "settings", "/", ""⟩,
        by decide, by decide⟩)))).1,
    (excluded_tab_never_grouped sampleRuntime DEFAULT_SETTINGS settingsTab
      [mkTab 1 "https://a.com/" (some 100)]
      [mkTab 2 "https://a.com" (some 50), mkTab 3 "https://b.com/" (some 10)]
      (Or.inr (Or.inr (Or.inr ⟨⟨"chrome:", "settings", "settings", "/", ""⟩,
        by decide, by decide⟩)))).2.1⟩

/-- C6. In every duplicate set returned by `groupTabsByDuplicate` the members are in
ascending order of `lastAccessed` (absent read as 0); for each value the members with that
`lastAccessed` are, in the same order, the snapshots of the eligible input tabs with the
set's token and that `lastAccessed` (the sort is stable); and the member list is a
rearrangement of the snapshots of the eligible input tabs carrying the set's token. -/
theorem duplicateSet_members_sorted_stable (rt : Runtime) (tabs : List Tab)
    (options : Settings) (s : Group)
    (hs : s ∈ (groupTabsByDuplicate rt tabs options).duplicateSets) :
    s.tabs.Pairwise (fun a b => lastAccessedOr0 a ≤ lastAccessedOr0 b) ∧
    (∀ v : Int, s.tabs.filter (fun m => decide (lastAccessedOr0 m = v)) =
      (tabs.filter (fun t => isEligible rt options.includePinned t &&
        decide (buildComparisonToken rt t.url options.ignoreQuery = s.token) &&
        decide (lastAccessedOr0 t = v))).map minifyTab) ∧
    s.tabs.Perm ((tabs.filter (fun t => isEligible rt options.includePinned t &&
      decide (buildComparisonToken rt t.url options.ignoreQuery = s.token))).map minifyTab) := by
  have htabs := (duplicateSets_tabs rt tabs options s hs).1
  refine ⟨?_, ?_, ?_⟩
  · rw [htabs]; exact tokenClass_sorted rt options tabs s.token
  · intro v
    rw [htabs, tokenClass_stable, tokenClass_filter_lastAccessed]
  · rw [← tokenClass_eq_filter]
    exact duplicateSets_perm rt tabs options s hs

/-- Instance of C6 on the `b.com` set of `twoSetTabs`, whose two members tie on `lastAccessed`. -/
theorem duplicateSet_members_sorted_stable_witness :
    tiedSet ∈ (groupTabsByDuplicate sampleRuntime twoSetTabs DEFAULT_SETTINGS).duplicateSets ∧
    tiedSet.tabs.filter (fun m => decide (lastAccessedOr0 m = 0)) =
      [mkTab 1 "https://b.com/" (some 0), mkTab 3 "https://b.com/" (some 0)] ∧
    (tiedSet.tabs.Pairwise (fun a b => lastAccessedOr0 a ≤ lastAccessedOr0 b) ∧
      (∀ v : Int, tiedSet.tabs.filter (fun m => decide (lastAccessedOr0 m = v)) =
        (twoSetTabs.filter (fun t => isEligible sampleRuntime DEFAULT_SETTINGS.includePinned t &&
          decide (buildComparisonToken sampleRuntime t.url DEFAULT_SETTINGS.ignoreQuery
            = tiedSet.token) &&
          decide (lastAccessedOr0 t = v))).map minifyTab) ∧
      tiedSet.tabs.Perm ((twoSetTabs.filter (fun t =>
        isEligible sampleRuntime DEFAULT_SETTINGS.includePinned t &&
        decide (buildComparisonToken sampleRuntime t.url DEFAULT_SETTINGS.ignoreQuery
          = tiedSet.token))).map minifyTab)) :=
  ⟨by decide, by decide,
    duplicateSet_members_sorted_stable sampleRuntime twoSetTabs DEFAULT_SETTINGS tiedSet
      (by decide)⟩

/-- C7. When `localeCompare` is a consistent comparator (total and transitive), the
duplicate sets returned by `groupTabsByDuplicate` are in order of non-increasing member
count, any two adjacent sets with equal member count are in ascending order of hostname
under `localeCompare`, and the hostname of a set is that of its first-encountered eligible
tab with a leading `www.` removed. -/
theorem duplicateSets_order (rt : Runtime) (tabs : List Tab) (options : Settings)
    (htotal : ∀ a b, rt.localeCompare a b ≤ 0 ∨ rt.localeCompare b a ≤ 0)
    (htrans : ∀ a b c, rt.localeCompare a b ≤ 0 → rt.localeCompare b c ≤ 0 →
      rt.localeCompare a c ≤ 0) :
    (groupTabsByDuplicate rt tabs options).duplicateSets.Pairwise
      (fun a b => b.tabs.length ≤ a.tabs.length) ∧
    (groupTabsByDuplicate rt tabs options).duplicateSets.Chain'
      (fun a b => a.tabs.length = b.tabs.length →
        rt.localeCompare a.hostname b.hostname ≤ 0) ∧
    (∀ s ∈ (groupTabsByDuplicate rt tabs options).duplicateSets,
      ∃ t parsed, (tabs.filter (isEligible rt options.includePinned)).find?
          (fun t => decide (buildComparisonToken rt t.url options.ignoreQuery = s.token))
            = some t ∧
        rt.parseUrl t.url = some parsed ∧ s.hostname = stripLeadingWww parsed.hostname) ∧
    (∀ rest : String, stripLeadingWww ("www." ++ rest) = rest) := by
  have h := duplicateSets_sorted rt tabs options htotal htrans
  refine ⟨?_, ?_, fun s hs => duplicateSets_hostname rt tabs options s hs, stripLeadingWww_www⟩
  · exact h.imp (fun hab => by rcases hab with h' | h' <;> omega)
  · apply List.Pairwise.chain'
    refine h.imp (fun hab heq => ?_)
    rcases hab with h' | h'
    · omega
    · exact h'.2

/-- Instance of C7 on `twoSetTabs` with the sample comparator: equal counts, `a.com` before `b.com`. -/
theorem duplicateSets_order_witness :
    (groupTabsByDuplicate sampleRuntime twoSetTabs DEFAULT_SETTINGS).duplicateSets = twoSets ∧
    (groupTabsByDuplicate sampleRuntime twoSetTabs DEFAULT_SETTINGS).duplicateSets.Pairwise
      (fun a b => b.tabs.length ≤ a.tabs.length) ∧
    (groupTabsByDuplicate sampleRuntime twoSetTabs DEFAULT_SETTINGS).duplicateSets.Chain'
      (fun a b => a.tabs.length = b.tabs.length →
        sampleRuntime.localeCompare a.hostname b.hostname ≤ 0) :=
  ⟨by decide,
    (duplicateSets_order sampleRuntime twoSetTabs DEFAULT_SETTINGS sampleLocaleCompare_total
      sampleLocaleCompare_trans).1,
    (duplicateSets_order sampleRuntime twoSetTabs DEFAULT_SETTINGS sampleLocaleCompare_total
      sampleLocaleCompare_trans).2.1⟩

/-- C8. Two parseable (hence non-empty) URLs with the same scheme, host and query whose
paths differ only in the number of trailing `/` have the same `normalizeUrl` token, for
either value of `ignoreQuery`; `trimTrailingSlash p = trimTrailingSlash (p ++ "/")` for every
path `p`; the result of `trimTrailingSlash` is `"/"` or does not end in `/`; and the empty
path and every path made only of `/` are mapped to `"/"`. -/
theorem normalizeUrl_trailing_slash (rt : Runtime) (u₁ u₂ : String) (p₁ p₂ : ParsedUrl)
    (base : String) (n m : Nat) (ignoreQuery : Bool)
    (hu₁ : u₁ ≠ "") (hu₂ : u₂ ≠ "")
    (hp₁ : rt.parseUrl u₁ = some p₁) (hp₂ : rt.parseUrl u₂ = some p₂)
    (hprotocol : p₁.protocol = p₂.protocol) (hhost : p₁.host = p₂.host)
    (hsearch : p₁.search = p₂.search)
    (hpath₁ : p₁.pathname = base ++ String.mk (List.replicate n '/'))
    (hpath₂ : p₂.pathname = base ++ String.mk (List.replicate m '/')) :
    normalizeUrl rt u₁ ignoreQuery = normalizeUrl rt u₂ ignoreQuery ∧
    (∀ p : String, trimTrailingSlash p = trimTrailingSlash (p ++ "/")) ∧
    (∀ p : String, trimTrailingSlash p = "/" ∨
      (trimTrailingSlash p).data.getLast? ≠ some '/') ∧
    trimTrailingSlash "" = "/" ∧
    (∀ p : String, (∀ c ∈ p.data, c = '/') → trimTrailingSlash p = "/") := by
  refine ⟨?_, fun p => (trimTrailingSlash_append_slash p).symm, trimTrailingSlash_no_trailing,
    trimTrailingSlash_all_slashes "" (by simp), trimTrailingSlash_all_slashes⟩
  rw [normalizeUrl_of_parse rt u₁ p₁ ignoreQuery hu₁ hp₁,
    normalizeUrl_of_parse rt u₂ p₂ ignoreQuery hu₂ hp₂, hprotocol, hhost, hsearch, hpath₁,
    hpath₂, trimTrailingSlash_append_slashes, trimTrailingSlash_append_slashes]

/-- Instance of C8: `https://x.com/a/` and `https://x.com/a` have the same token. -/
theorem normalizeUrl_trailing_slash_witness :
    normalizeUrl sampleRuntime "https://x.com/a/" false = "https://x.com/a" ∧
    normalizeUrl sampleRuntime "https://x.com/a/" false
      = normalizeUrl sampleRuntime "https://x.com/a" false :=
  ⟨by decide,
    (normalizeUrl_trailing_slash sampleRuntime "https://x.com/a/" "https://x.com/a"
      ⟨"https:", "x.com", "x.com", "/a/", ""⟩ ⟨"https:", "x.com", "x.com", "/a", ""⟩
      "/a" 1 0 false (by decide) (by decide) (by decide) (by decide) rfl rfl rfl
      (by decide) (by decide)).1⟩

/-- C9, as amended.  With the host listing the tabs `tabs`, let `ids` be the close-list
`selectTabsToClose(summary.duplicateSets, strategy)`.  `deduplicateTabs` issues a close
request if and only if `ids` is non-empty.  When `ids` is empty (in particular for an empty
inventory) it returns `removed = 0` and only the query reaches the host.  Otherwise exactly
one close request, with exactly `ids`, follows the query; if the host performs it the
result is `removed = ids.length`, and if the host fails it that error is the outcome.
Neither `deduplicateTabs` nor `closeSpecificTabs` sends a close request with an empty id
list. -/
theorem deduplicateTabs_close_requests (rt : Runtime) (host : Host) (options : Settings)
    (tabs : List Tab) (hq : host.tabsQuery (buildScopeQuery options.scope) = Except.ok tabs) :
    ∃ ids, selectTabsToClose (groupTabsByDuplicate rt tabs options).duplicateSets
        (if options.strategy = "" then DEFAULT_SETTINGS.strategy else options.strategy)
          = Except.ok ids ∧
      (deduplicateTabs rt host options).2 =
        HostCall.query (buildScopeQuery options.scope) ::
          (if ids = [] then [] else [HostCall.remove ids]) ∧
      ((∃ l, HostCall.remove l ∈ (deduplicateTabs rt host options).2) ↔ ids ≠ []) ∧
      (ids = [] → (deduplicateTabs rt host options).1 =
        Except.ok { removed := 0, summary := groupTabsByDuplicate rt tabs options }) ∧
      (tabs = [] → ids = []) ∧
      (ids ≠ [] → host.tabsRemove ids = Except.ok () →
        (deduplicateTabs rt host options).1 =
          Except.ok { removed := ids.length, summary := groupTabsByDuplicate rt tabs options }) ∧
      (ids ≠ [] → ∀ e, host.tabsRemove ids = Except.error e →
        (deduplicateTabs rt host options).1 = Except.error e) ∧
      (∀ c ∈ (deduplicateTabs rt host options).2, c ≠ HostCall.remove []) ∧
      (∀ tabIds, ∀ c ∈ (closeSpecificTabs host tabIds).2, c ≠ HostCall.remove []) := by
  have hids := selectTabsToClose_duplicateSets rt tabs options
    (if options.strategy = "" then DEFAULT_SETTINGS.strategy else options.strategy)
  refine ⟨_, hids, ?_⟩
  have heq := deduplicateTabs_eq rt host options tabs _ hq hids
  generalize (groupTabsByDuplicate rt tabs options).duplicateSets.flatMap
    (idsOtherThanKeeper
      (if options.strategy = "" then DEFAULT_SETTINGS.strategy else options.strategy)) = ids
    at hids heq
  by_cases h : ids = []
  · subst h
    simp only [if_true] at heq
    rw [heq]
    refine ⟨rfl, by simp, fun _ => rfl, fun _ => rfl, fun h => absurd rfl h,
      fun h => absurd rfl h, ?_, closeSpecificTabs_log host⟩
    intro c hc
    simp only [List.mem_singleton] at hc
    rw [hc]; exact fun h => HostCall.noConfusion h
  · simp only [h, if_false] at heq
    rw [heq]
    refine ⟨by simp [h], ?_, fun h' => absurd h' h, ?_, ?_, ?_, ?_, closeSpecificTabs_log host⟩
    · exact ⟨fun _ => h, fun _ => ⟨ids, by simp⟩⟩
    · intro ht
      subst ht
      have : selectTabsToClose (groupTabsByDuplicate rt [] options).duplicateSets
          (if options.strategy = "" then DEFAULT_SETTINGS.strategy else options.strategy)
          = Except.ok [] := rfl
      rw [this] at hids
      injection hids with hids
      exact hids.symm
    · intro _ hok
      simp only [hok]
    · intro _ e herr
      simp only [herr]
    · intro c hc
      simp only [List.mem_cons, List.mem_singleton, List.not_mem_nil, or_false] at hc
      rcases hc with hc | hc
      · rw [hc]; exact fun h => HostCall.noConfusion h
      · rw [hc]
        intro heq'
        injection heq' with heq'
        exact h heq'

/-- Instance of C9 (amended) on the worked scenario and on the empty inventory, with a host that performs the close request. -/
theorem deduplicateTabs_close_requests_witness :
    deduplicateTabs sampleRuntime (obligingHost sampleTabs) DEFAULT_SETTINGS =
      (Except.ok { removed := 1,
                   summary := groupTabsByDuplicate sampleRuntime sampleTabs DEFAULT_SETTINGS },
        [HostCall.query false, HostCall.remove [1]]) ∧
    deduplicateTabs sampleRuntime (obligingHost []) DEFAULT_SETTINGS =
      (Except.ok { removed := 0,
                   summary := groupTabsByDuplicate sampleRuntime [] DEFAULT_SETTINGS },
        [HostCall.query false]) ∧
    ∀ c ∈ (deduplicateTabs sampleRuntime (obligingHost sampleTabs) DEFAULT_SETTINGS).2,
      c ≠ HostCall.remove [] :=
  ⟨by rfl, by rfl,
    (deduplicateTabs_close_requests sampleRuntime (obligingHost sampleTabs) DEFAULT_SETTINGS
      sampleTabs rfl).elim (fun _ h => h.2.2.2.2.2.2.2.1)⟩

/-- C9, as stated, fails when the host rejects the close request: the close-list of the
worked scenario is `[1]`, one close request with `[1]` is issued, and `deduplicateTabs` ends
in the host's error instead of returning `removed = 1`. -/
theorem deduplicateTabs_close_failure :
    selectTabsToClose
        (groupTabsByDuplicate sampleRuntime sampleTabs DEFAULT_SETTINGS).duplicateSets
        "keep-oldest" = Except.ok [1] ∧
    deduplicateTabs sampleRuntime (refusingHost sampleTabs) DEFAULT_SETTINGS =
      (Except.error "No tab with id", [HostCall.query false, HostCall.remove [1]]) ∧
    ¬ ∃ summary, (deduplicateTabs sampleRuntime (refusingHost sampleTabs) DEFAULT_SETTINGS).1 =
        Except.ok { removed := 1, summary := summary } := by
  have h : deduplicateTabs sampleRuntime (refusingHost sampleTabs) DEFAULT_SETTINGS =
      (Except.error "No tab with id", [HostCall.query false, HostCall.remove [1]]) := by rfl
  refine ⟨by rfl, h, ?_⟩
  rintro ⟨summary, hs⟩
  rw [h] at hs
  exact Except.noConfusion hs

/-- C10, the defect.  In `handleSubmit` a rejected `saveSettings` ends the handler in its
`catch`: `deduplicateTabs` is not called, and the failure is reported as a failed
deduplication.  `state.settings` is left as it was, and in `handleSettingChange` the same
rejection is only logged: the update of `state.settings` stands and `refreshSummary` is
still called. -/
theorem handleSubmit_save_failure :
    handleSubmit sampleSettingsObject (Except.error "QUOTA_BYTES quota exceeded") (Except.ok 1) =
      (sampleSettingsObject,
        [PopupEffect.preventDefault, PopupEffect.setProcessing true,
         PopupEffect.saveSettings sampleSettingsObject,
         PopupEffect.consoleError "Deduplication failed",
         PopupEffect.showStatus "Deduplication failed." "error",
         PopupEffect.setProcessing false]) ∧
    (∀ (settings : SettingsObject) (e : String) (dedupOutcome : Except String Nat),
      PopupEffect.deduplicateTabs settings ∉
          (handleSubmit settings (Except.error e) dedupOutcome).2 ∧
        (handleSubmit settings (Except.error e) dedupOutcome).1 = settings) ∧
    (∀ (settings : SettingsObject) (dedupOutcome : Except String Nat),
      PopupEffect.deduplicateTabs settings ∈
        (handleSubmit settings (Except.ok ()) dedupOutcome).2) ∧
    (∀ (settings : SettingsObject) (event : ChangeEvent) (e : String), event.name ≠ "" →
      (handleSettingChange settings event (Except.error e)).1 =
          setProperty settings event.name
            (if event.type = "checkbox" then FormValue.flag event.checked
             else FormValue.text event.value) ∧
        (handleSettingChange settings event (Except.error e)).2 =
          [PopupEffect.saveSettings (handleSettingChange settings event (Except.error e)).1,
           PopupEffect.refreshSummary (handleSettingChange settings event (Except.error e)).1,
           PopupEffect.consoleWarn "Failed to save settings"]) := by
  refine ⟨by decide, ?_, ?_, ?_⟩
  · intro settings e dedupOutcome
    refine ⟨?_, rfl⟩
    simp [handleSubmit]
  · intro settings dedupOutcome
    simp [handleSubmit]
  · intro settings event e hname
    simp [handleSettingChange, hname]

end TabDedup
